import Mathlib

/-!
Verification model of the go-file-explorer backend (path sandbox validator,
conflict-resolution engine, trash store, synchronous operations engine and
job finalization), shallowly embedded in Lean 4.

Go strings are modelled as lists of characters (`GoStr`); the filesystem is
modelled as the set of existing absolute paths (`FS`, a list).  All path
functions are Unix-semantics translations of Go's `path/filepath` and
`strings` packages, restricted to the calls the translated services make.
-/

set_option autoImplicit false

namespace GFE

/-- A Go string, modelled as its list of characters. -/
abbrev GoStr := List Char

/-- Shorthand turning a Lean string literal into the Go string model. -/
def gs (s : String) : GoStr := s.data

/-- The Latin-1 fragment of Go `unicode.IsSpace` (space, \t, \n, \v, \f, \r,
NEL, NBSP).  Higher-plane Unicode whitespace is not reachable in any claim. -/
def goIsSpace (c : Char) : Bool :=
  c = ' ' || c = '\t' || c = '\n' || c.val = 11 || c.val = 12 || c = '\r' ||
    c.val = 0x85 || c.val = 0xA0

/-- Go `strings.TrimSpace`: drop leading and trailing whitespace. -/
def goTrimSpace (s : GoStr) : GoStr :=
  ((s.dropWhile goIsSpace).reverse.dropWhile goIsSpace).reverse

/-- Go `strings.ReplaceAll(s, "\\", "/")` (single-character replacement). -/
def replaceBackslashes (s : GoStr) : GoStr :=
  s.map (fun c => if c = '\\' then '/' else c)

/-- Go `unicode.IsControl`: the Unicode Cc category (C0 and C1 controls). -/
def goIsControl (c : Char) : Bool :=
  c.val < 0x20 || c.val = 0x7f || (0x80 ≤ c.val && c.val ≤ 0x9f)

/-- `hasControlCharacters` from `path_validator.go`. -/
def hasControlCharacters (s : GoStr) : Bool :=
  s.any goIsControl

/-- Go `strings.Split(s, "/")`: always returns at least one (possibly empty)
piece; separators are not kept. -/
def splitOnSlash : GoStr → List GoStr
  | [] => [[]]
  | c :: rest =>
    if c = '/' then [] :: splitOnSlash rest
    else
      match splitOnSlash rest with
      | [] => [[c]]
      | piece :: pieces => (c :: piece) :: pieces

/-- Whether a path is rooted (starts with `/`), Go `path.IsAbs` on Unix. -/
def isRooted : GoStr → Bool
  | '/' :: _ => true
  | _ => false

/-- The element-processing loop of Go `filepath.Clean` (Unix): drop empty and
`.` pieces; on `..` pop the last real component, or keep a leading `..` run
when the path is relative, or drop it when rooted.  `out` is the output stack
in reverse order. -/
def cleanSegsAux (rooted : Bool) : List GoStr → List GoStr → List GoStr
  | out, [] => out.reverse
  | out, piece :: pieces =>
    if piece = [] || piece = ['.'] then cleanSegsAux rooted out pieces
    else if piece = ['.', '.'] then
      match out with
      | [] =>
        if rooted then cleanSegsAux rooted [] pieces
        else cleanSegsAux rooted [['.', '.']] pieces
      | top :: rest =>
        if top = ['.', '.'] then cleanSegsAux rooted (['.', '.'] :: top :: rest) pieces
        else cleanSegsAux rooted rest pieces
    else cleanSegsAux rooted (piece :: out) pieces

/-- Join segments with `/` separators. -/
def joinSegs : List GoStr → GoStr
  | [] => []
  | [s] => s
  | s :: rest => s ++ '/' :: joinSegs rest

/-- Go `filepath.Clean` on Unix. -/
def goClean (s : GoStr) : GoStr :=
  if s = [] then ['.']
  else
    let rooted := isRooted s
    let segs := cleanSegsAux rooted [] (splitOnSlash s)
    if rooted then '/' :: joinSegs segs
    else if segs = [] then ['.'] else joinSegs segs

/-- Go `filepath.Join(a, b)` on Unix (two-argument form): join the non-empty
arguments with `/` and clean; all-empty input gives the empty string. -/
def goJoin (a b : GoStr) : GoStr :=
  if a = [] && b = [] then []
  else if a = [] then goClean b
  else if b = [] then goClean a
  else goClean (a ++ '/' :: b)

/-- Go `filepath.Abs` on Unix: clean an absolute path, otherwise join onto
the process working directory `cwd` (the error return is always nil on
Unix for these inputs). -/
def goAbs (cwd s : GoStr) : GoStr :=
  if isRooted s then goClean s else goJoin cwd s

/-- Drop trailing `/` characters. -/
def stripTrailingSlashes (s : GoStr) : GoStr :=
  (s.reverse.dropWhile (· = '/')).reverse

/-- Everything after the last `/` (the whole string when it has none). -/
def lastSlashComponent (s : GoStr) : GoStr :=
  (s.reverse.takeWhile (· ≠ '/')).reverse

/-- Everything up to and including the last `/` (empty when it has none). -/
def upToLastSlash (s : GoStr) : GoStr :=
  (s.reverse.dropWhile (· ≠ '/')).reverse

/-- Go `filepath.Base` on Unix. -/
def goBase (s : GoStr) : GoStr :=
  if s = [] then ['.']
  else
    let t := stripTrailingSlashes s
    if t = [] then ['/'] else lastSlashComponent t

/-- Go `filepath.Dir` on Unix: clean of everything up to the last separator. -/
def goDir (s : GoStr) : GoStr :=
  goClean (upToLastSlash s)

/-- Scanning helper for `goExt`: walk the reversed path until a separator
(no extension) or a dot (extension found, collected in `acc`). -/
def extFromRev (acc : GoStr) : GoStr → GoStr
  | [] => []
  | c :: rest =>
    if c = '/' then []
    else if c = '.' then c :: acc
    else extFromRev (c :: acc) rest

/-- Go `filepath.Ext`: the suffix starting at the final dot of the final
path element, empty if there is none. -/
def goExt (s : GoStr) : GoStr :=
  extFromRev [] s.reverse

/-- Go `strings.TrimSuffix`. -/
def goTrimSuffix (s suffix : GoStr) : GoStr :=
  if suffix.isSuffixOf s then s.take (s.length - suffix.length) else s

/-- Go `strings.ToLower` (ASCII fragment; paths and reasons in the claims
stay in ASCII). -/
def goToLower (s : GoStr) : GoStr :=
  s.map Char.toLower

/-- Go `strings.Contains`. -/
def strContains (s sub : GoStr) : Bool :=
  sub.isPrefixOf s ||
    match s with
    | [] => false
    | _ :: rest => strContains rest sub

/-- `normalizeAPIPath` from `directory_service.go`: clean the trimmed path
(`ToSlash` is the identity on Unix) and force a leading slash. -/
def normalizeAPIPath (path : GoStr) : GoStr :=
  let cleaned := goClean (goTrimSpace path)
  if cleaned = ['.'] || cleaned = [] then ['/']
  else if isRooted cleaned then cleaned
  else '/' :: cleaned

/-- The Go error values the translated services produce.  `api` is
`apierror.New(code, message, details, status)`; `wrapped` is a
`fmt.Errorf("...: %w", err)` wrapper; `repoWrite` is an injected database
failure used to model a failing repository call. -/
inductive GoError where
  | api (code message : String) (details : GoStr) (status : Nat)
  | osNotExist (path : GoStr)
  | pathConflictTarget
  | trashItemNotFound
  | illegalFilePath (path : GoStr)
  | repoWrite (message : String)
  | wrapped (context : String) (inner : GoError)
  deriving DecidableEq

/-- The `Error()` text of a modelled Go error (`apierror.Error()` renders as
`CODE: message (details)`). -/
def errText : GoError → GoStr
  | .api code message details _ =>
    gs code ++ gs ": " ++ gs message ++
      (if details = [] then [] else gs " (" ++ details ++ gs ")")
  | .osNotExist path => gs "stat " ++ path ++ gs ": no such file or directory"
  | .pathConflictTarget => gs "path conflict: target already exists"
  | .trashItemNotFound => gs "trash item not found"
  | .illegalFilePath path => gs "illegal file path: " ++ path
  | .repoWrite message => gs message
  | .wrapped context inner => gs context ++ gs ": " ++ errText inner

/-- The HTTP status of the first `apierror.APIError` in the unwrap chain
(Go `errors.As`). -/
def firstAPIStatus : GoError → Option Nat
  | .api _ _ _ status => some status
  | .wrapped _ inner => firstAPIStatus inner
  | _ => none

/-- Go `errors.Is(err, os.ErrNotExist)`: unwraps through `%w` wrappers. -/
def isNotExistChain : GoError → Bool
  | .osNotExist _ => true
  | .wrapped _ inner => isNotExistChain inner
  | _ => false

/-- Go `os.IsNotExist` (no unwrapping of `%w` chains). -/
def osIsNotExist : GoError → Bool
  | .osNotExist _ => true
  | _ => false

/-- `statNotFound` from `conflict_service.go`: an `apierror` with HTTP 404,
or otherwise a raw not-exist error. -/
def statNotFound (e : GoError) : Bool :=
  match firstAPIStatus e with
  | some status => status == 404
  | none => isNotExistChain e

deriving instance DecidableEq for Except

/-- `isWithinRoot` from `path_validator.go`. -/
def isWithinRoot (rootAbs candidateAbs : GoStr) : Bool :=
  if candidateAbs = rootAbs then true
  else (rootAbs ++ ['/']).isPrefixOf candidateAbs

/-- `PathValidator` from `path_validator.go`: carries the absolute storage
root. -/
structure PathValidator where
  rootAbs : GoStr
  deriving DecidableEq

/-- `PathValidator.ResolvePath`.  `cwd` models the process working directory
consulted by `filepath.Abs`. -/
def ResolvePath (v : PathValidator) (cwd clientPath : GoStr) : Except GoError GoStr :=
  let normalized := replaceBackslashes (goTrimSpace clientPath)
  if normalized = [] || normalized = ['/'] then .ok v.rootAbs
  else if normalized.contains (Char.ofNat 0) || hasControlCharacters normalized then
    .error (.api "INVALID_PATH" "path contains invalid characters" clientPath 400)
  else if (splitOnSlash normalized).any (· = ['.', '.']) then
    .error (.api "PATH_TRAVERSAL" "path traversal attempt detected" clientPath 403)
  else
    let cleanRel := goClean (if normalized.head? = some '/' then normalized.tail else normalized)
    if cleanRel = ['.'] then .ok v.rootAbs
    else
      let resolved := goJoin v.rootAbs cleanRel
      let resolvedAbs := goAbs cwd resolved
      if isWithinRoot v.rootAbs resolvedAbs then .ok resolvedAbs
      else .error (.api "PATH_TRAVERSAL" "resolved path is outside storage root" clientPath 403)

example : goClean (gs "/a/../b//c/./") = gs "/b/c" := by decide
example : goClean (gs "a/../../b") = gs "../b" := by decide
example : goClean (gs "") = gs "." := by decide
example : goJoin (gs "/r") (gs "a/b") = gs "/r/a/b" := by decide
example : goBase (gs "/") = gs "/" := by decide
example : goBase (gs "/a/b.txt") = gs "b.txt" := by decide
example : goDir (gs "/a/b.txt") = gs "/a" := by decide
example : goExt (gs "/d/x.txt") = gs ".txt" := by decide
example : normalizeAPIPath (gs "d/x.txt") = gs "/d/x.txt" := by decide
example : ResolvePath ⟨gs "/r"⟩ (gs "/w") (gs "a\\b") = .ok (gs "/r/a/b") := by decide
example : ResolvePath ⟨gs "/r"⟩ (gs "/w") (gs "/") = .ok (gs "/r") := by decide
example :
    ResolvePath ⟨gs "/r"⟩ (gs "/w") (gs "/a/../../etc/passwd") =
      .error (.api "PATH_TRAVERSAL" "path traversal attempt detected" (gs "/a/../../etc/passwd") 403) := by
  decide

/-! ## Filesystem and storage model

The host filesystem is modelled as the list of absolute paths that exist
(`FS`).  File-versus-directory typing, permissions and I/O failures are not
modelled; the only `os` errors the model produces are not-exist errors. -/

/-- The set of existing absolute paths. -/
abbrev FS := List GoStr

/-- Whether the absolute path `p` exists. -/
def fsExists (fs : FS) (p : GoStr) : Bool :=
  fs.contains p

/-- Whether `p` is `pre` itself or lies strictly below it. -/
def underOrEq (pre p : GoStr) : Bool :=
  p == pre || (pre ++ ['/']).isPrefixOf p

/-- `os.Stat` reduced to an existence check. -/
def osStat (fs : FS) (p : GoStr) : Except GoError Unit :=
  if fsExists fs p then .ok () else .error (.osNotExist p)

/-- Fuelled helper for `osMkdirAll`: insert the path and its missing
ancestors (`goDir` iterates); existing paths are left alone. -/
def mkdirAllAux : Nat → FS → GoStr → FS
  | 0, fs, p => if fsExists fs p then fs else p :: fs
  | fuel + 1, fs, p =>
    if fsExists fs p then fs
    else p :: mkdirAllAux fuel fs (goDir p)

/-- `os.MkdirAll`: a no-op when the path exists, otherwise creates the
directory and its missing parents. -/
def osMkdirAll (fs : FS) (p : GoStr) : FS :=
  mkdirAllAux p.length fs p

/-- How `os.Rename src dst` transports a single existing path. -/
def renameMap (src dst p : GoStr) : GoStr :=
  if p = src then dst
  else if (src ++ ['/']).isPrefixOf p then dst ++ p.drop src.length
  else p

/-- `os.Rename`: fails when the source does not exist, otherwise transports
the source and everything below it to the destination. -/
def osRename (fs : FS) (src dst : GoStr) : Except GoError FS :=
  if fsExists fs src then .ok (fs.map (renameMap src dst))
  else .error (.osNotExist src)

/-- `os.RemoveAll`: removes the path and everything below it; never fails
(missing paths are a no-op, as in Go). -/
def osRemoveAll (fs : FS) (p : GoStr) : FS :=
  fs.filter (fun q => !underOrEq p q)

/-- `os.OpenFile(p, O_CREATE|O_WRONLY|O_TRUNC, …)` reduced to making the
path exist. -/
def fsCreateFile (fs : FS) (p : GoStr) : FS :=
  if fsExists fs p then fs else p :: fs

/-- `storage.Storage` from `storage.go`: every client path goes through the
validator.  `cwd` models the process working directory used by
`filepath.Abs`. -/
structure Store where
  validator : PathValidator
  cwd : GoStr
  deriving DecidableEq

/-- `Storage.Resolve`. -/
def Store.Resolve (st : Store) (clientPath : GoStr) : Except GoError GoStr :=
  ResolvePath st.validator st.cwd clientPath

/-- `Storage.Stat`: resolve, then `os.Stat` (raw os error, as in the Go
code which returns the `os.Stat` error unchanged). -/
def Store.Stat (st : Store) (fs : FS) (clientPath : GoStr) : Except GoError Unit :=
  match st.Resolve clientPath with
  | .error e => .error e
  | .ok resolved => osStat fs resolved

/-- `Storage.MkdirAll`. -/
def Store.MkdirAll (st : Store) (fs : FS) (clientPath : GoStr) : Except GoError FS :=
  match st.Resolve clientPath with
  | .error e => .error e
  | .ok resolved => .ok (osMkdirAll fs resolved)

/-- `Storage.RemoveAll`. -/
def Store.RemoveAll (st : Store) (fs : FS) (clientPath : GoStr) : Except GoError FS :=
  match st.Resolve clientPath with
  | .error e => .error e
  | .ok resolved => .ok (osRemoveAll fs resolved)

/-- `Storage.Rename`: resolve both ends, make the destination's parent
directory, then `os.Rename`. -/
def Store.Rename (st : Store) (fs : FS) (oldPath newPath : GoStr) : Except GoError FS :=
  match st.Resolve oldPath with
  | .error e => .error e
  | .ok oldResolved =>
    match st.Resolve newPath with
    | .error e => .error e
    | .ok newResolved => osRename (osMkdirAll fs (goDir newResolved)) oldResolved newResolved

/-! ## Conflict-resolution engine (`conflict_service.go`) -/

/-- `normalizeConflictPolicy`: trim and lowercase; empty defaults to
`rename`; anything outside the three policies is a `BAD_REQUEST`. -/
def normalizeConflictPolicy (raw : GoStr) : Except GoError GoStr :=
  let policy := goToLower (goTrimSpace raw)
  let policy := if policy = [] then gs "rename" else policy
  if policy = gs "overwrite" || policy = gs "rename" || policy = gs "skip" then .ok policy
  else .error (.api "BAD_REQUEST" "invalid conflict_policy (allowed: overwrite|rename|skip)" raw 400)

/-- The candidate name probed at `index` by the `rename` policy:
`base (index)ext` joined onto the parent and API-normalized. -/
def renameCandidate (desiredPath : GoStr) (index : Nat) : GoStr :=
  let ext := goExt desiredPath
  let baseName := goTrimSuffix (goBase desiredPath) ext
  let parent := goDir desiredPath
  normalizeAPIPath (goJoin parent (baseName ++ gs " (" ++ gs (toString index) ++ gs ")" ++ ext))

/-- The probing loop of the `rename` policy (`for index := 1; index <= 10000`),
with `fuel` counting the remaining iterations. -/
def renameProbeLoop (st : Store) (fs : FS) (desiredPath : GoStr) :
    Nat → Nat → Except GoError (GoStr × Bool)
  | _, 0 => .error (.api "CONFLICT" "could not resolve unique target name" desiredPath 409)
  | index, fuel + 1 =>
    let nextPath := renameCandidate desiredPath index
    match st.Stat fs nextPath with
    | .ok _ => renameProbeLoop st fs desiredPath (index + 1) fuel
    | .error e => if statNotFound e then .ok (nextPath, false) else .error e

/-- `resolveConflictTarget`: returns the (possibly mutated, for `overwrite`)
filesystem, the target path, and the skip flag. -/
def resolveConflictTarget (st : Store) (fs : FS) (desiredPath policy : GoStr) :
    Except GoError (FS × GoStr × Bool) :=
  match normalizeConflictPolicy policy with
  | .error e => .error e
  | .ok normalizedPolicy =>
  match st.Stat fs desiredPath with
  | .error statErr =>
    if statNotFound statErr then .ok (fs, desiredPath, false) else .error statErr
  | .ok _ =>
    if normalizedPolicy = gs "skip" then .ok (fs, [], true)
    else if normalizedPolicy = gs "overwrite" then
      match st.RemoveAll fs desiredPath with
      | .error removeErr => .error (.wrapped "overwrite target" removeErr)
      | .ok fs' => .ok (fs', desiredPath, false)
    else if normalizedPolicy = gs "rename" then
      match renameProbeLoop st fs desiredPath 1 10000 with
      | .error e => .error e
      | .ok (nextPath, skipped) => .ok (fs, nextPath, skipped)
    else .error (.api "BAD_REQUEST" "invalid conflict policy" normalizedPolicy 400)

example :
    resolveConflictTarget ⟨⟨gs "/r"⟩, gs "/w"⟩ [gs "/r", gs "/r/d", gs "/r/d/x.txt"]
      (gs "/d/x.txt") (gs "rename") = .ok ([gs "/r", gs "/r/d", gs "/r/d/x.txt"], gs "/d/x (1).txt", false) := by
  decide

example :
    resolveConflictTarget ⟨⟨gs "/r"⟩, gs "/w"⟩ [gs "/r", gs "/r/d", gs "/r/d/x.txt"]
      (gs "/d/x.txt") (gs "skip") = .ok ([gs "/r", gs "/r/d", gs "/r/d/x.txt"], [], true) := by
  decide

/-! ## Trash store (`trash_service.go`, repository from the trash
repository source file)

Timestamps are modelled as `Nat` ticks; UUIDs and the database-write
outcome are passed in as parameters (they are environmental inputs of the
Go code: `uuid.NewString()`, `time.Now()`, and the Postgres pool).  Audit
actors carry no behaviour in the translated services and are omitted from
the record model. -/

/-- `model.TrashRecord` (the fields the translated services read). -/
structure TrashRecord where
  id : GoStr
  originalPath : GoStr
  trashName : GoStr
  deletedAt : Nat
  restoredAt : Option Nat
  deriving DecidableEq

/-- The trash-records table. -/
abbrev TrashRepo := List TrashRecord

/-- `ORDER BY deleted_at DESC LIMIT 1` over a filtered list: the record
with the greatest `deletedAt` (first-in-list wins ties). -/
def pickLatest : List TrashRecord → Option TrashRecord
  | [] => none
  | r :: rest =>
    match pickLatest rest with
    | none => some r
    | some best => if r.deletedAt < best.deletedAt then some best else some r

/-- `TrashRepository.FindLatestByPath`: latest non-restored record for the
original path, `ErrTrashItemNotFound` when there is none. -/
def findLatestByPath (repo : TrashRepo) (originalPath : GoStr) : Except GoError TrashRecord :=
  match pickLatest (repo.filter (fun r => r.originalPath = originalPath && r.restoredAt.isNone)) with
  | none => .error .trashItemNotFound
  | some r => .ok r

/-- `TrashRepository.MarkRestored`: stamps `restoredAt` on the matching
non-restored record; zero rows affected is `ErrTrashItemNotFound`. -/
def markRestored (repo : TrashRepo) (id : GoStr) (now : Nat) : Except GoError TrashRepo :=
  if repo.any (fun r => r.id = id && r.restoredAt.isNone) then
    .ok (repo.map (fun r =>
      if r.id = id && r.restoredAt.isNone then { r with restoredAt := some now } else r))
  else .error .trashItemNotFound

/-- `movePath` from `trash_service.go`: make the destination's parent, then
rename.  The cross-device copy-then-delete fallback reaches the same final
path set and is folded into the rename; the returned filesystem reflects the
parent-directory creation even when the rename fails. -/
def movePath (fs : FS) (source destination : GoStr) : FS × Option GoError :=
  let fs1 := osMkdirAll fs (goDir destination)
  match osRename fs1 source destination with
  | .ok fs2 => (fs2, none)
  | .error e => (fs1, some e)

/-- `TrashService.SoftDelete`.  `freshId`/`freshUuid` model the two
`uuid.NewString()` calls, `now` the deletion timestamp, and `createErr` the
outcome of the repository insert (`none` = success).  Returns the
filesystem, the repository, and the call result. -/
def SoftDelete (st : Store) (trashRoot : GoStr) (freshId freshUuid : GoStr) (now : Nat)
    (createErr : Option GoError) (fs : FS) (repo : TrashRepo) (apiPath : GoStr) :
    FS × TrashRepo × Except GoError TrashRecord :=
  match st.Resolve apiPath with
  | .error e => (fs, repo, .error e)
  | .ok resolved =>
    match osStat fs resolved with
    | .error e => (fs, repo, .error e)
    | .ok _ =>
      let record : TrashRecord :=
        { id := freshId, originalPath := apiPath,
          trashName := freshUuid ++ gs "_" ++ goBase apiPath,
          deletedAt := now, restoredAt := none }
      let trashPath := goJoin trashRoot record.trashName
      match movePath fs resolved trashPath with
      | (fs1, some e) => (fs1, repo, .error (.wrapped "move to trash" e))
      | (fs1, none) =>
        match createErr with
        | some e =>
          let (fs2, _) := movePath fs1 trashPath resolved
          (fs2, repo, .error e)
        | none => (fs1, repo ++ [record], .ok record)

/-- `TrashService.RestoreLatest`.  `now` models the restore timestamp.
Returns the filesystem, the repository, and the call result. -/
def RestoreLatest (st : Store) (trashRoot : GoStr) (now : Nat)
    (fs : FS) (repo : TrashRepo) (apiPath : GoStr) :
    FS × TrashRepo × Except GoError TrashRecord :=
  match findLatestByPath repo apiPath with
  | .error e => (fs, repo, .error e)
  | .ok record =>
    match st.Resolve apiPath with
    | .error e => (fs, repo, .error e)
    | .ok targetResolved =>
      if fsExists fs targetResolved then
        (fs, repo, .error .pathConflictTarget)
      else
        let fs1 := osMkdirAll fs (goDir targetResolved)
        let trashPath := goJoin trashRoot record.trashName
        match movePath fs1 trashPath targetResolved with
        | (fs2, some e) => (fs2, repo, .error (.wrapped "restore" e))
        | (fs2, none) =>
          match markRestored repo record.id now with
          | .error e =>
            let (fs3, _) := movePath fs2 targetResolved trashPath
            (fs3, repo, .error e)
          | .ok repo' => (fs2, repo', .ok { record with restoredAt := some now })

/-! ## Synchronous operations engine (`operations_service.go`)

Audit logging and event publication are observation-only collaborators (no
effect on results or the filesystem) and are not modelled.  Per-call
environmental inputs of `SoftDelete` (UUIDs, clock, repository outcome) are
supplied by a `TrashCtx` indexed by a call counter. -/

/-- `model.MoveCopyResult`. -/
structure MoveCopyResult where
  From : GoStr
  To : GoStr
  deriving DecidableEq

/-- `model.MoveCopyFailure`. -/
structure MoveCopyFailure where
  From : GoStr
  Reason : GoStr
  deriving DecidableEq

/-- `model.MoveResponse`. -/
structure MoveResponse where
  Moved : List MoveCopyResult
  Failed : List MoveCopyFailure
  deriving DecidableEq

/-- `model.CopyResponse`. -/
structure CopyResponse where
  Copied : List MoveCopyResult
  Failed : List MoveCopyFailure
  deriving DecidableEq

/-- `model.DeleteFailure`. -/
structure DeleteFailure where
  Path : GoStr
  Reason : GoStr
  deriving DecidableEq

/-- `model.DeleteResponse`. -/
structure DeleteResponse where
  Deleted : List GoStr
  Failed : List DeleteFailure
  deriving DecidableEq

/-- `model.RestoreFailure`. -/
structure RestoreFailure where
  Path : GoStr
  Reason : GoStr
  deriving DecidableEq

/-- `model.RestoreResponse`. -/
structure RestoreResponse where
  Restored : List GoStr
  Failed : List RestoreFailure
  deriving DecidableEq

/-- The per-source loop of `OperationsService.Move`. -/
def moveLoop (st : Store) (destination policy : GoStr) :
    List GoStr → FS → MoveResponse → FS × MoveResponse
  | [], fs, acc => (fs, acc)
  | source :: rest, fs, acc =>
    let source := normalizeAPIPath source
    if source = gs "/" then
      moveLoop st destination policy rest fs
        { acc with Failed := acc.Failed ++ [⟨source, gs "root path cannot be moved"⟩] }
    else
      let target := normalizeAPIPath (goJoin destination (goBase source))
      if source = target then
        moveLoop st destination policy rest fs
          { acc with Moved := acc.Moved ++ [⟨source, target⟩] }
      else
        match resolveConflictTarget st fs target policy with
        | .error resolveErr =>
          moveLoop st destination policy rest fs
            { acc with Failed := acc.Failed ++ [⟨source, errText resolveErr⟩] }
        | .ok (fs', resolvedTarget, skipped) =>
          if skipped then
            moveLoop st destination policy rest fs'
              { acc with Failed := acc.Failed ++ [⟨source, gs "skipped: target already exists"⟩] }
          else
            match st.Rename fs' source resolvedTarget with
            | .error e =>
              moveLoop st destination policy rest fs'
                { acc with Failed := acc.Failed ++ [⟨source, errText e⟩] }
            | .ok fs'' =>
              moveLoop st destination policy rest fs''
                { acc with Moved := acc.Moved ++ [⟨source, resolvedTarget⟩] }

/-- `OperationsService.Move`. -/
def Move (st : Store) (fs : FS) (sources : List GoStr) (destination conflictPolicy : GoStr) :
    Except GoError (FS × MoveResponse) := do
  if sources = [] then
    .error (.api "BAD_REQUEST" "sources are required" (gs "sources") 400)
  else
    let normalizedPolicy ← normalizeConflictPolicy conflictPolicy
    let destination := normalizeAPIPath destination
    let _ ← st.Resolve destination
    let fs ← st.MkdirAll fs destination
    .ok (moveLoop st destination normalizedPolicy sources fs ⟨[], []⟩)

/-- `copyRecursive`, reduced to its effect on the path set: every path at or
below the source reappears at the target (symlinks do not occur in the
model; I/O failures are not modelled). -/
def copyRecursiveFS (fs : FS) (sourceAbs targetAbs : GoStr) : FS :=
  fs ++ (fs.filter (fun p => underOrEq sourceAbs p)).map (renameMap sourceAbs targetAbs)

/-- The per-source loop of `OperationsService.Copy`.  Unlike `moveLoop`
there is no root-source check in the Go code. -/
def copyLoop (st : Store) (destination policy : GoStr) :
    List GoStr → FS → CopyResponse → FS × CopyResponse
  | [], fs, acc => (fs, acc)
  | source :: rest, fs, acc =>
    let source := normalizeAPIPath source
    match st.Resolve source with
    | .error e =>
      copyLoop st destination policy rest fs
        { acc with Failed := acc.Failed ++ [⟨source, errText e⟩] }
    | .ok sourceResolved =>
      match osStat fs sourceResolved with
      | .error e =>
        copyLoop st destination policy rest fs
          { acc with Failed := acc.Failed ++ [⟨source, errText e⟩] }
      | .ok _ =>
        let target := normalizeAPIPath (goJoin destination (goBase source))
        match resolveConflictTarget st fs target policy with
        | .error resolveErr =>
          copyLoop st destination policy rest fs
            { acc with Failed := acc.Failed ++ [⟨source, errText resolveErr⟩] }
        | .ok (fs', resolvedTarget, skipped) =>
          if skipped then
            copyLoop st destination policy rest fs'
              { acc with Failed := acc.Failed ++ [⟨source, gs "skipped: target already exists"⟩] }
          else
            match st.Resolve resolvedTarget with
            | .error e =>
              copyLoop st destination policy rest fs'
                { acc with Failed := acc.Failed ++ [⟨source, errText e⟩] }
            | .ok resolvedTargetAbs =>
              let fs'' := copyRecursiveFS fs' sourceResolved resolvedTargetAbs
              copyLoop st destination policy rest fs''
                { acc with Copied := acc.Copied ++ [⟨source, resolvedTarget⟩] }

/-- `OperationsService.Copy`. -/
def Copy (st : Store) (fs : FS) (sources : List GoStr) (destination conflictPolicy : GoStr) :
    Except GoError (FS × CopyResponse) := do
  if sources = [] then
    .error (.api "BAD_REQUEST" "sources are required" (gs "sources") 400)
  else
    let normalizedPolicy ← normalizeConflictPolicy conflictPolicy
    let destination := normalizeAPIPath destination
    let _ ← st.Resolve destination
    let fs ← st.MkdirAll fs destination
    .ok (copyLoop st destination normalizedPolicy sources fs ⟨[], []⟩)

/-- Environmental inputs of the trash-backed loops: the trash area root, a
UUID stream, a clock, and the per-call repository-insert outcome, indexed
by the number of `SoftDelete` calls made so far. -/
structure TrashCtx where
  trashRoot : GoStr
  freshId : Nat → GoStr
  freshUuid : Nat → GoStr
  now : Nat → Nat
  createErr : Nat → Option GoError

/-- The per-path loop of `OperationsService.Delete`; `k` counts `SoftDelete`
calls made so far. -/
def deleteLoop (st : Store) (ctx : TrashCtx) :
    List GoStr → FS → TrashRepo → Nat → DeleteResponse → FS × TrashRepo × DeleteResponse
  | [], fs, repo, _, acc => (fs, repo, acc)
  | path :: rest, fs, repo, k, acc =>
    let path := normalizeAPIPath path
    if path = gs "/" then
      deleteLoop st ctx rest fs repo k
        { acc with Failed := acc.Failed ++ [⟨path, gs "root path cannot be deleted"⟩] }
    else
      match SoftDelete st ctx.trashRoot (ctx.freshId k) (ctx.freshUuid k) (ctx.now k)
          (ctx.createErr k) fs repo path with
      | (fs', repo', .error e) =>
        deleteLoop st ctx rest fs' repo' (k + 1)
          { acc with Failed := acc.Failed ++ [⟨path, errText e⟩] }
      | (fs', repo', .ok _) =>
        deleteLoop st ctx rest fs' repo' (k + 1)
          { acc with Deleted := acc.Deleted ++ [path] }

/-- `OperationsService.Delete`. -/
def Delete (st : Store) (ctx : TrashCtx) (fs : FS) (repo : TrashRepo) (paths : List GoStr) :
    Except GoError (FS × TrashRepo × DeleteResponse) :=
  if paths = [] then
    .error (.api "BAD_REQUEST" "paths are required" (gs "paths") 400)
  else
    .ok (deleteLoop st ctx paths fs repo 0 ⟨[], []⟩)

/-- The per-path loop of `OperationsService.Restore`; `k` counts
`RestoreLatest` calls made so far. -/
def restoreLoop (st : Store) (ctx : TrashCtx) :
    List GoStr → FS → TrashRepo → Nat → RestoreResponse → FS × TrashRepo × RestoreResponse
  | [], fs, repo, _, acc => (fs, repo, acc)
  | path :: rest, fs, repo, k, acc =>
    let path := normalizeAPIPath path
    if path = gs "/" then
      restoreLoop st ctx rest fs repo k
        { acc with Failed := acc.Failed ++ [⟨path, gs "root path cannot be restored"⟩] }
    else
      match RestoreLatest st ctx.trashRoot (ctx.now k) fs repo path with
      | (fs', repo', .error e) =>
        let reason := if osIsNotExist e then gs "no trashed version found" else errText e
        restoreLoop st ctx rest fs' repo' (k + 1)
          { acc with Failed := acc.Failed ++ [⟨path, reason⟩] }
      | (fs', repo', .ok _) =>
        restoreLoop st ctx rest fs' repo' (k + 1)
          { acc with Restored := acc.Restored ++ [path] }

/-- `OperationsService.Restore`. -/
def Restore (st : Store) (ctx : TrashCtx) (fs : FS) (repo : TrashRepo) (paths : List GoStr) :
    Except GoError (FS × TrashRepo × RestoreResponse) :=
  if paths = [] then
    .error (.api "BAD_REQUEST" "paths are required" (gs "paths") 400)
  else
    .ok (restoreLoop st ctx paths fs repo 0 ⟨[], []⟩)

/-! ## Archive utilities (`util/archive.go`) and `Decompress` -/

/-- One zip entry: its decoded name and whether it is a directory entry. -/
structure ZipEntry where
  name : GoStr
  isDir : Bool
  deriving DecidableEq

/-- The parsed entry list of a zip archive. -/
abbrev ZipFile := List ZipEntry

/-- The zip-slip guard shared by `CheckZipConflicts` and `Decompress`:
the joined path must extend the cleaned destination plus separator. -/
def zipEntryConfined (destDir fpath : GoStr) : Bool :=
  (goClean destDir ++ ['/']).isPrefixOf fpath

/-- The entry scan of `CheckZipConflicts`: abort on a zip-slip path,
otherwise collect the names whose target already exists. -/
def checkZipLoop (fs : FS) (destDir : GoStr) : List ZipEntry → Except GoError (List GoStr)
  | [] => .ok []
  | e :: rest =>
    let fpath := goJoin destDir e.name
    if !zipEntryConfined destDir fpath then .error (.illegalFilePath fpath)
    else
      match checkZipLoop fs destDir rest with
      | .error err => .error err
      | .ok conflicts =>
        .ok (if fsExists fs fpath then e.name :: conflicts else conflicts)

/-- `util.CheckZipConflicts`; `zipAt` models `zip.OpenReader` (the archive
contents found at a resolved path). -/
def CheckZipConflicts (zipAt : GoStr → Except GoError ZipFile) (fs : FS)
    (srcZip destDir : GoStr) : Except GoError (List GoStr) :=
  match zipAt srcZip with
  | .error e => .error e
  | .ok entries => checkZipLoop fs destDir entries

/-- Writing one accepted entry: directories via `MkdirAll`, files via
`MkdirAll` on the parent plus `O_CREATE|O_TRUNC` creation (which overwrites
an existing file in place). -/
def writeEntry (fs : FS) (fpath : GoStr) (isDir : Bool) : FS :=
  if isDir then osMkdirAll fs fpath
  else fsCreateFile (osMkdirAll fs (goDir fpath)) fpath

/-- The extraction loop of `util.Decompress`: abort on the first zip-slip
path (earlier writes persist), otherwise record the name and write the
entry. -/
def decompressLoop (destDir : GoStr) :
    List ZipEntry → FS → List GoStr → FS × Except GoError (List GoStr)
  | [], fs, acc => (fs, .ok acc)
  | e :: rest, fs, acc =>
    let fpath := goJoin destDir e.name
    if !zipEntryConfined destDir fpath then (fs, .error (.illegalFilePath fpath))
    else
      decompressLoop destDir rest (writeEntry fs fpath e.isDir) (acc ++ [e.name])

/-- `util.Decompress`. -/
def utilDecompress (zipAt : GoStr → Except GoError ZipFile) (fs : FS)
    (srcZip destDir : GoStr) : FS × Except GoError (List GoStr) :=
  match zipAt srcZip with
  | .error e => (fs, .error e)
  | .ok entries => decompressLoop destDir entries fs []

/-- `model.DecompressResponse`. -/
structure DecompressResponse where
  Destination : GoStr := []
  Files : List GoStr := []
  Conflicts : List GoStr := []
  deriving DecidableEq

/-- `OperationsService.Decompress`: returns the filesystem, the response,
and the error (the Go call returns both a response and an error in the
conflict case). -/
def Decompress (st : Store) (zipAt : GoStr → Except GoError ZipFile) (fs : FS)
    (source destination conflictPolicy : GoStr) :
    FS × DecompressResponse × Option GoError :=
  let source := normalizeAPIPath source
  match st.Resolve source with
  | .error e => (fs, {}, some e)
  | .ok sourceResolved =>
    let destination := normalizeAPIPath destination
    match st.Resolve destination with
    | .error e => (fs, {}, some e)
    | .ok destResolved =>
      match st.MkdirAll fs destination with
      | .error e => (fs, {}, some e)
      | .ok fs1 =>
        if conflictPolicy ≠ gs "overwrite" then
          match CheckZipConflicts zipAt fs1 sourceResolved destResolved with
          | .error e => (fs1, {}, some e)
          | .ok conflicts =>
            if conflicts ≠ [] then
              (fs1, { Conflicts := conflicts },
                some (.api "CONFLICT" "conflicting files found" (gs "conflicts") 409))
            else
              match utilDecompress zipAt fs1 sourceResolved destResolved with
              | (fs2, .error e) => (fs2, {}, some e)
              | (fs2, .ok files) =>
                (fs2, { Destination := destination, Files := files }, none)
        else
          match utilDecompress zipAt fs1 sourceResolved destResolved with
          | (fs2, .error e) => (fs2, {}, some e)
          | (fs2, .ok files) =>
            (fs2, { Destination := destination, Files := files }, none)

/-! ## Job finalization (`job_service.go`) -/

/-- `model.JobItemResult`. -/
structure JobItemResult where
  From : GoStr := []
  To : GoStr := []
  Path : GoStr := []
  Status : GoStr
  Reason : GoStr := []
  deriving DecidableEq

/-- The fields of `model.JobData` that `finalize` reads or writes. -/
structure JobData where
  status : GoStr
  totalItems : Nat
  processedItems : Nat
  successItems : Nat
  failedItems : Nat
  progress : Nat
  finishedAt : GoStr
  items : List JobItemResult
  deriving DecidableEq

/-- The pure state transition of `JobService.finalize` (persistence and
subscriber notification are observation-only).  `now` models the
finalization timestamp. -/
def finalize (job : JobData) (items : List JobItemResult) (now : GoStr) : JobData :=
  let successItems := items.countP (fun i => i.Status = gs "success")
  let failedItems := items.countP (fun i => ¬ i.Status = gs "success")
  let totalItems := if job.totalItems = 0 then items.length else job.totalItems
  let status :=
    if successItems = 0 && failedItems > 0 then gs "failed"
    else if successItems > 0 && failedItems > 0 then gs "partial"
    else gs "completed"
  { job with
      items := items, processedItems := items.length,
      successItems := successItems, failedItems := failedItems,
      totalItems := totalItems, progress := 100, finishedAt := now,
      status := status }

/-- The copy-branch item classification of `JobService.process`: a leading
failure item when the whole call errored, then successes, then failures --
a failure whose lower-cased reason contains "skipped" is tagged `skipped`. -/
def copyJobItems (callErr : Option GoError) (response : CopyResponse) : List JobItemResult :=
  (match callErr with
   | some e => [{ Status := gs "failed", Reason := errText e }]
   | none => []) ++
  response.Copied.map (fun c => { From := c.From, To := c.To, Status := gs "success" }) ++
  response.Failed.map (fun f =>
    { From := f.From,
      Status := if strContains (goToLower f.Reason) (gs "skipped") then gs "skipped" else gs "failed",
      Reason := f.Reason })

/-- The copy branch of `JobService.process`, from request to item list. -/
def processCopyItems (st : Store) (fs : FS) (sources : List GoStr)
    (destination conflictPolicy : GoStr) : FS × List JobItemResult :=
  match Copy st fs sources destination conflictPolicy with
  | .error e => (fs, copyJobItems (some e) ⟨[], []⟩)
  | .ok (fs', response) => (fs', copyJobItems none response)

/-! ## Lemmas about the path functions -/

/-- A cleaned path segment: non-empty and free of separators. -/
def goodSeg (x : GoStr) : Prop :=
  x ≠ [] ∧ '/' ∉ x

theorem getLast?_mem_of_eq {α : Type} {l : List α} {c : α} (h : l.getLast? = some c) :
    c ∈ l := by
  obtain ⟨hne, rfl⟩ := List.mem_getLast?_eq_getLast (Option.mem_def.mpr h)
  exact List.getLast_mem hne

theorem splitOnSlash_ne_nil (s : GoStr) : splitOnSlash s ≠ [] := by
  match s with
  | [] => simp [splitOnSlash]
  | c :: rest =>
    simp only [splitOnSlash]
    split
    · simp
    · cases h : splitOnSlash rest with
      | nil => simp
      | cons piece pieces => simp

theorem splitOnSlash_no_slash (s : GoStr) :
    ∀ piece ∈ splitOnSlash s, '/' ∉ piece := by
  induction s with
  | nil =>
    intro piece hp
    simp only [splitOnSlash, List.mem_singleton] at hp
    subst hp
    simp
  | cons c rest ih =>
    intro piece hp
    simp only [splitOnSlash] at hp
    split at hp
    · rcases List.mem_cons.mp hp with h | h
      · subst h; simp
      · exact ih piece h
    · rename_i hc
      cases hsplit : splitOnSlash rest with
      | nil => exact absurd hsplit (splitOnSlash_ne_nil rest)
      | cons p ps =>
        simp only [hsplit] at hp
        rcases List.mem_cons.mp hp with h | h
        · subst h
          intro hmem
          rcases List.mem_cons.mp hmem with h' | h'
          · exact hc h'.symm
          · exact ih p (hsplit ▸ List.mem_cons_self p ps) h'
        · exact ih piece (hsplit ▸ List.mem_cons_of_mem p h)

theorem cleanSegsAux_good (rooted : Bool) :
    ∀ (pieces out : List GoStr), (∀ p ∈ pieces, '/' ∉ p) → (∀ x ∈ out, goodSeg x) →
      ∀ x ∈ cleanSegsAux rooted out pieces, goodSeg x := by
  intro pieces
  induction pieces with
  | nil =>
    intro out _ hout x hx
    simp only [cleanSegsAux, List.mem_reverse] at hx
    exact hout x hx
  | cons piece rest ih =>
    intro out hpieces hout x hx
    have hrest : ∀ p ∈ rest, '/' ∉ p := fun p hp => hpieces p (List.mem_cons_of_mem piece hp)
    have hpiece : '/' ∉ piece := hpieces piece (List.mem_cons_self piece rest)
    simp only [cleanSegsAux] at hx
    split at hx
    · exact ih out hrest hout x hx
    · rename_i hne
      split at hx
      · split at hx
        · split at hx
          · exact ih [] hrest (by simp) x hx
          · refine ih [['.', '.']] hrest ?_ x hx
            intro y hy
            rw [List.mem_singleton] at hy
            subst hy
            exact ⟨by simp, by decide⟩
        · rename_i top outRest
          split at hx
          · rename_i htop
            refine ih (['.', '.'] :: top :: outRest) hrest ?_ x hx
            intro y hy
            rcases List.mem_cons.mp hy with h | h
            · subst h; exact ⟨by simp, by decide⟩
            · exact hout y h
          · exact ih outRest hrest (fun y hy => hout y (List.mem_cons_of_mem top hy)) x hx
      · refine ih (piece :: out) hrest ?_ x hx
        intro y hy
        rcases List.mem_cons.mp hy with h | h
        · subst h
          refine ⟨?_, hpiece⟩
          intro hnil
          simp [hnil] at hne
        · exact hout y h

theorem joinSegs_good (segs : List GoStr) (hgood : ∀ x ∈ segs, goodSeg x) (hne : segs ≠ []) :
    joinSegs segs ≠ [] ∧ ∀ c, (joinSegs segs).getLast? = some c → c ≠ '/' := by
  induction segs with
  | nil => exact absurd rfl hne
  | cons x rest ih =>
    cases rest with
    | nil =>
      have hx := hgood x (List.mem_cons_self x [])
      refine ⟨by simpa [joinSegs] using hx.1, ?_⟩
      intro c hc hceq
      subst hceq
      exact hx.2 (getLast?_mem_of_eq (by simpa [joinSegs] using hc))
    | cons y rest' =>
      have ih' := ih (fun z hz => hgood z (List.mem_cons_of_mem x hz)) (by simp)
      constructor
      · simp [joinSegs]
      · intro c hc
        simp only [joinSegs] at hc
        rw [List.getLast?_append_cons] at hc
        rw [show ('/' :: joinSegs (y :: rest')) = ['/'] ++ joinSegs (y :: rest') from rfl,
          List.getLast?_append_of_ne_nil _ ih'.1] at hc
        exact ih'.2 c hc

theorem goClean_getLast?_slash (s : GoStr) (c : Char)
    (h : (goClean s).getLast? = some c) (hc : c = '/') : goClean s = ['/'] := by
  subst hc
  by_cases hnil : s = []
  · simp [goClean, hnil] at h
  · simp only [goClean, if_neg hnil] at h ⊢
    have hgood : ∀ x ∈ cleanSegsAux (isRooted s) [] (splitOnSlash s), goodSeg x :=
      cleanSegsAux_good (isRooted s) (splitOnSlash s) [] (splitOnSlash_no_slash s) (by simp)
    by_cases hr : isRooted s = true
    · rw [if_pos hr] at h ⊢
      cases hsegs : cleanSegsAux (isRooted s) [] (splitOnSlash s) with
      | nil => rfl
      | cons a as =>
        rw [hsegs] at h
        have hj := joinSegs_good (a :: as) (hsegs ▸ hgood) (by simp)
        rw [show ('/' :: joinSegs (a :: as)) = ['/'] ++ joinSegs (a :: as) from rfl,
          List.getLast?_append_of_ne_nil _ hj.1] at h
        exact absurd rfl (hj.2 '/' h)
    · rw [if_neg hr] at h ⊢
      cases hsegs : cleanSegsAux (isRooted s) [] (splitOnSlash s) with
      | nil => rw [hsegs] at h; simp at h
      | cons a as =>
        rw [hsegs] at h
        have hj := joinSegs_good (a :: as) (hsegs ▸ hgood) (by simp)
        rw [if_neg (by simp)] at h
        exact absurd rfl (hj.2 '/' h)

theorem goClean_ne_nil (s : GoStr) : goClean s ≠ [] := by
  by_cases hnil : s = []
  · simp [goClean, hnil]
  · simp only [goClean, if_neg hnil]
    have hgood : ∀ x ∈ cleanSegsAux (isRooted s) [] (splitOnSlash s), goodSeg x :=
      cleanSegsAux_good (isRooted s) (splitOnSlash s) [] (splitOnSlash_no_slash s) (by simp)
    by_cases hr : isRooted s = true
    · simp [hr]
    · rw [if_neg hr]
      cases hsegs : cleanSegsAux (isRooted s) [] (splitOnSlash s) with
      | nil => simp
      | cons a as =>
        rw [if_neg (by simp)]
        exact (joinSegs_good (a :: as) (hsegs ▸ hgood) (by simp)).1

theorem goJoin_eq_nil_or_clean (a b : GoStr) :
    goJoin a b = [] ∨ ∃ t, goJoin a b = goClean t := by
  unfold goJoin
  split
  · exact Or.inl rfl
  · split
    · exact Or.inr ⟨b, rfl⟩
    · split
      · exact Or.inr ⟨a, rfl⟩
      · exact Or.inr ⟨a ++ '/' :: b, rfl⟩

theorem goJoin_getLast?_slash (a b : GoStr) (c : Char)
    (h : (goJoin a b).getLast? = some c) (hc : c = '/') : goJoin a b = ['/'] := by
  rcases goJoin_eq_nil_or_clean a b with hnil | ⟨t, ht⟩
  · rw [hnil] at h; simp at h
  · rw [ht] at h ⊢
    exact goClean_getLast?_slash t c h hc

theorem goAbs_getLast?_slash (cwd s : GoStr) (c : Char)
    (h : (goAbs cwd s).getLast? = some c) (hc : c = '/') : goAbs cwd s = ['/'] := by
  by_cases hr : isRooted s = true
  · simp only [goAbs, if_pos hr] at h ⊢
    exact goClean_getLast?_slash s c h hc
  · simp only [goAbs, if_neg hr] at h ⊢
    exact goJoin_getLast?_slash cwd s c h hc

/-- Whether some slash-separated segment of `s` equals exactly `..`. -/
def hasDotdotSeg (s : GoStr) : Bool :=
  (splitOnSlash s).any (· = ['.', '.'])

theorem goIsSpace_replaceChar (c : Char) :
    goIsSpace (if c = '\\' then '/' else c) = goIsSpace c := by
  by_cases h : c = '\\'
  · subst h; decide
  · rw [if_neg h]

theorem replaceBackslashes_goTrimSpace (p : GoStr) :
    replaceBackslashes (goTrimSpace p) = goTrimSpace (replaceBackslashes p) := by
  have hcomp : (goIsSpace ∘ fun c => if c = '\\' then '/' else c) = goIsSpace :=
    funext goIsSpace_replaceChar
  simp only [goTrimSpace, replaceBackslashes, List.dropWhile_map, hcomp, ← List.map_reverse]

/-- Apply `f` to the last element of a list. -/
def modLast (f : GoStr → GoStr) : List GoStr → List GoStr
  | [] => []
  | [x] => [f x]
  | x :: y :: rest => x :: modLast f (y :: rest)

theorem splitOnSlash_concat (s : GoStr) (c : Char) (hc : c ≠ '/') :
    splitOnSlash (s ++ [c]) = modLast (· ++ [c]) (splitOnSlash s) := by
  induction s with
  | nil => simp [splitOnSlash, modLast, if_neg hc]
  | cons d s' ih =>
    by_cases hd : d = '/'
    · subst hd
      cases hsp : splitOnSlash s' with
      | nil => exact absurd hsp (splitOnSlash_ne_nil s')
      | cons p ps =>
        simp [splitOnSlash, ih, hsp, modLast]
    · cases hsp : splitOnSlash s' with
      | nil => exact absurd hsp (splitOnSlash_ne_nil s')
      | cons p ps =>
        cases ps with
        | nil => simp [splitOnSlash, if_neg hd, ih, hsp, modLast]
        | cons q qs => simp [splitOnSlash, if_neg hd, ih, hsp, modLast]

theorem hasDotdot_modLast {l : List GoStr} {c : Char} (hdot : c ≠ '.')
    (h : (modLast (· ++ [c]) l).any (· = ['.', '.']) = true) :
    l.any (· = ['.', '.']) = true := by
  induction l with
  | nil => simp [modLast] at h
  | cons x rest ih =>
    cases rest with
    | nil =>
      simp only [modLast, List.any_cons, List.any_nil, Bool.or_false,
        decide_eq_true_eq] at h
      have hlast : (x ++ [c]).getLast? = some c := by
        rw [List.getLast?_append_of_ne_nil _ (by simp)]; rfl
      rw [h] at hlast
      simp at hlast
      exact absurd hlast.symm hdot
    | cons y rest' =>
      simp only [modLast, List.any_cons, Bool.or_eq_true, decide_eq_true_eq] at h ⊢
      rcases h with h | h
      · exact Or.inl h
      · exact Or.inr (by simpa using ih (by simpa using h))

theorem goIsSpace_ne_slash_dot (c : Char) (hc : goIsSpace c = true) :
    c ≠ '/' ∧ c ≠ '.' := by
  constructor <;> intro heq <;> subst heq <;> revert hc <;> decide

theorem hasDotdotSeg_cons {c : Char} {s : GoStr} (hslash : c ≠ '/') (hdot : c ≠ '.')
    (h : hasDotdotSeg (c :: s) = true) : hasDotdotSeg s = true := by
  unfold hasDotdotSeg at h ⊢
  simp only [splitOnSlash, if_neg hslash] at h
  cases hsp : splitOnSlash s with
  | nil => exact absurd hsp (splitOnSlash_ne_nil s)
  | cons p ps =>
    simp only [hsp] at h ⊢
    simp only [List.any_cons, Bool.or_eq_true, decide_eq_true_eq] at h ⊢
    rcases h with h | h
    · rcases List.cons_eq_cons.mp h with ⟨hc, _⟩
      exact absurd hc hdot
    · exact Or.inr h

theorem hasDotdotSeg_concat {c : Char} {s : GoStr} (hslash : c ≠ '/') (hdot : c ≠ '.')
    (h : hasDotdotSeg (s ++ [c]) = true) : hasDotdotSeg s = true := by
  unfold hasDotdotSeg at h ⊢
  rw [splitOnSlash_concat s c hslash] at h
  exact hasDotdot_modLast hdot h

theorem hasDotdotSeg_dropWhile (s : GoStr) (h : hasDotdotSeg s = true) :
    hasDotdotSeg (s.dropWhile goIsSpace) = true := by
  induction s with
  | nil => simpa using h
  | cons c rest ih =>
    by_cases hc : goIsSpace c = true
    · rw [List.dropWhile_cons_of_pos hc]
      obtain ⟨hslash, hdot⟩ := goIsSpace_ne_slash_dot c hc
      exact ih (hasDotdotSeg_cons hslash hdot h)
    · rw [List.dropWhile_cons_of_neg hc]
      exact h

theorem hasDotdotSeg_dropWhile_rev (l : List Char) (h : hasDotdotSeg l.reverse = true) :
    hasDotdotSeg (l.dropWhile goIsSpace).reverse = true := by
  induction l with
  | nil => simpa using h
  | cons c rest ih =>
    by_cases hc : goIsSpace c = true
    · rw [List.dropWhile_cons_of_pos hc]
      obtain ⟨hslash, hdot⟩ := goIsSpace_ne_slash_dot c hc
      rw [List.reverse_cons] at h
      exact ih (hasDotdotSeg_concat hslash hdot h)
    · rw [List.dropWhile_cons_of_neg hc]
      exact h

theorem hasDotdotSeg_goTrimSpace (s : GoStr) (h : hasDotdotSeg s = true) :
    hasDotdotSeg (goTrimSpace s) = true := by
  unfold goTrimSpace
  apply hasDotdotSeg_dropWhile_rev
  rw [List.reverse_reverse]
  exact hasDotdotSeg_dropWhile s h

/-! ## Claim C1 -/

/-- C1 (amended): every successful `ResolvePath` returns the storage root
itself or a path having root + separator as a strict prefix; and every
client path whose backslash-normalized form has a segment equal to `..` is
rejected with an error — `PATH_TRAVERSAL`, unless the path carries a NUL
byte or a control character, in which case the earlier `INVALID_PATH`
rejection fires instead (so no path is ever returned either way). -/
theorem rootAbs_concat_ne_goAbs (v : PathValidator) (hroot : isRooted v.rootAbs = true)
    (cwd s : GoStr) : goAbs cwd s ≠ v.rootAbs ++ ['/'] := by
  intro hXeq
  have hl : (goAbs cwd s).getLast? = some '/' := by
    rw [hXeq, List.getLast?_append_of_ne_nil _ (by simp)]
    rfl
  have hX1 := goAbs_getLast?_slash cwd s '/' hl rfl
  rw [hX1] at hXeq
  have hlen := congrArg List.length hXeq
  simp at hlen
  rw [hlen] at hroot
  exact absurd hroot (by decide)

theorem c1_resolvePath_sandbox (v : PathValidator) (cwd p : GoStr)
    (hroot : isRooted v.rootAbs = true) :
    (∀ out, ResolvePath v cwd p = .ok out →
      out = v.rootAbs ∨
        ((v.rootAbs ++ ['/']).isPrefixOf out = true ∧ out ≠ v.rootAbs ++ ['/'])) ∧
    (hasDotdotSeg (replaceBackslashes p) = true →
      ResolvePath v cwd p = .error
        (if (replaceBackslashes (goTrimSpace p)).contains (Char.ofNat 0)
            || hasControlCharacters (replaceBackslashes (goTrimSpace p)) then
          .api "INVALID_PATH" "path contains invalid characters" p 400
        else .api "PATH_TRAVERSAL" "path traversal attempt detected" p 403)) := by
  constructor
  · intro out h
    simp only [ResolvePath] at h
    split at h
    · simp only [Except.ok.injEq] at h
      exact Or.inl h.symm
    · split at h
      · exact Except.noConfusion h
      · split at h
        · exact Except.noConfusion h
        · split at h
          · split at h
            · simp only [Except.ok.injEq] at h
              exact Or.inl h.symm
            · split at h
              · rename_i hin
                simp only [Except.ok.injEq] at h
                subst h
                unfold isWithinRoot at hin
                split at hin
                · rename_i heq
                  exact Or.inl heq
                · exact Or.inr ⟨hin, rootAbs_concat_ne_goAbs v hroot cwd _⟩
              · exact Except.noConfusion h
          · split at h
            · simp only [Except.ok.injEq] at h
              exact Or.inl h.symm
            · split at h
              · rename_i hin
                simp only [Except.ok.injEq] at h
                subst h
                unfold isWithinRoot at hin
                split at hin
                · rename_i heq
                  exact Or.inl heq
                · exact Or.inr ⟨hin, rootAbs_concat_ne_goAbs v hroot cwd _⟩
              · exact Except.noConfusion h
  · intro hdd
    have hdd' : hasDotdotSeg (replaceBackslashes (goTrimSpace p)) = true := by
      rw [replaceBackslashes_goTrimSpace]
      exact hasDotdotSeg_goTrimSpace _ hdd
    have hne : ¬((replaceBackslashes (goTrimSpace p) = [] ||
        replaceBackslashes (goTrimSpace p) = ['/']) = true) := by
      intro hcon
      simp only [Bool.or_eq_true, decide_eq_true_eq] at hcon
      rcases hcon with h | h <;> rw [h] at hdd' <;> revert hdd' <;> decide
    simp only [ResolvePath]
    rw [if_neg hne]
    by_cases hbad : ((replaceBackslashes (goTrimSpace p)).contains (Char.ofNat 0)
        || hasControlCharacters (replaceBackslashes (goTrimSpace p))) = true
    · rw [if_pos hbad, if_pos hbad]
    · rw [if_neg hbad, if_neg hbad,
        if_pos (show (splitOnSlash (replaceBackslashes (goTrimSpace p))).any
          (· = ['.', '.']) = true from hdd')]

/-- C1 witness: `resolve("/a/../../etc/passwd")` under root `/r` fails with
`PATH_TRAVERSAL`, via the amended theorem. -/
theorem c1_resolvePath_sandbox_witness :
    ResolvePath ⟨gs "/r"⟩ (gs "/w") (gs "/a/../../etc/passwd") =
      .error (.api "PATH_TRAVERSAL" "path traversal attempt detected"
        (gs "/a/../../etc/passwd") 403) :=
  ((c1_resolvePath_sandbox ⟨gs "/r"⟩ (gs "/w") (gs "/a/../../etc/passwd")
    (by decide)).2 (by decide)).trans (by decide)

/-- C1 counterexample: the input `a\x01/../b` has a `..` segment after
backslash normalization, yet `ResolvePath` returns the `INVALID_PATH`
(HTTP 400) error — not a `PATH_TRAVERSAL` (HTTP 403) error — because the
control-character check runs before the `..`-segment check. -/
theorem c1_counterexample :
    hasDotdotSeg (replaceBackslashes (['a', Char.ofNat 1] ++ gs "/../b")) = true ∧
    ResolvePath ⟨gs "/r"⟩ (gs "/w") (['a', Char.ofNat 1] ++ gs "/../b") =
      .error (.api "INVALID_PATH" "path contains invalid characters"
        (['a', Char.ofNat 1] ++ gs "/../b") 400) := by
  constructor
  · decide
  · decide

/-! ## Claims C9 and C4 -/

/-- C9: with a valid conflict policy, `resolveConflictTarget` on an existing
desired path under policy `skip` reports `skipped = true` and leaves the
filesystem untouched; and on a missing desired path it returns the desired
path unchanged with `skipped = false` for every valid policy, again with no
filesystem mutation. -/
theorem c9_conflict_skip_and_missing (st : Store) (fs : FS)
    (desiredPath policy normalized : GoStr)
    (hpol : normalizeConflictPolicy policy = .ok normalized) :
    (normalized = gs "skip" → st.Stat fs desiredPath = .ok () →
      resolveConflictTarget st fs desiredPath policy = .ok (fs, [], true)) ∧
    (∀ e, st.Stat fs desiredPath = .error e → statNotFound e = true →
      resolveConflictTarget st fs desiredPath policy = .ok (fs, desiredPath, false)) := by
  constructor
  · intro hskip hstat
    subst hskip
    simp [resolveConflictTarget, hpol, hstat]
  · intro e hstat hnf
    simp [resolveConflictTarget, hpol, hstat, hnf]

/-- C9 witness: a concrete `skip` on an existing target and a concrete
`rename` on a missing target. -/
theorem c9_conflict_skip_and_missing_witness :
    resolveConflictTarget ⟨⟨gs "/r"⟩, gs "/w"⟩ [gs "/r", gs "/r/d", gs "/r/d/x.txt"]
        (gs "/d/x.txt") (gs "skip") = .ok ([gs "/r", gs "/r/d", gs "/r/d/x.txt"], [], true) ∧
    resolveConflictTarget ⟨⟨gs "/r"⟩, gs "/w"⟩ [gs "/r", gs "/r/d"]
        (gs "/d/x.txt") (gs "rename") = .ok ([gs "/r", gs "/r/d"], gs "/d/x.txt", false) :=
  ⟨(c9_conflict_skip_and_missing ⟨⟨gs "/r"⟩, gs "/w"⟩ [gs "/r", gs "/r/d", gs "/r/d/x.txt"]
      (gs "/d/x.txt") (gs "skip") (gs "skip") (by decide)).1 rfl (by decide),
   (c9_conflict_skip_and_missing ⟨⟨gs "/r"⟩, gs "/w"⟩ [gs "/r", gs "/r/d"]
      (gs "/d/x.txt") (gs "rename") (gs "rename") (by decide)).2
      (.osNotExist (gs "/r/d/x.txt")) (by decide) (by decide)⟩

theorem renameProbeLoop_found (st : Store) (fs : FS) (d : GoStr) (e : GoError)
    (hnf : statNotFound e = true) :
    ∀ (fuel index N : Nat), index ≤ N → N < index + fuel →
      (∀ k, index ≤ k → k < N → st.Stat fs (renameCandidate d k) = .ok ()) →
      st.Stat fs (renameCandidate d N) = .error e →
      renameProbeLoop st fs d index fuel = .ok (renameCandidate d N, false) := by
  intro fuel
  induction fuel with
  | zero => intro index N h1 h2 _ _; omega
  | succ fuel ih =>
    intro index N h1 h2 hall hN
    by_cases hiN : index = N
    · subst hiN
      simp [renameProbeLoop, hN, hnf]
    · have hlt : index < N := lt_of_le_of_ne h1 hiN
      have hok := hall index le_rfl hlt
      simp only [renameProbeLoop, hok]
      exact ih (index + 1) N hlt (by omega) (fun k hk1 hk2 => hall k (by omega) hk2) hN

theorem renameProbeLoop_exhaust (st : Store) (fs : FS) (d : GoStr) :
    ∀ (fuel index : Nat),
      (∀ k, index ≤ k → k < index + fuel → st.Stat fs (renameCandidate d k) = .ok ()) →
      renameProbeLoop st fs d index fuel =
        .error (.api "CONFLICT" "could not resolve unique target name" d 409) := by
  intro fuel
  induction fuel with
  | zero => intro index _; rfl
  | succ fuel ih =>
    intro index hall
    have hok := hall index le_rfl (by omega)
    simp only [renameProbeLoop, hok]
    exact ih (index + 1) (fun k h1 h2 => hall k (by omega) (by omega))

/-- C4: when the desired path exists and the policy is `rename`, the probe
runs through `base (N).ext` candidates sequentially from N = 1: the first
candidate whose stat reports not-found is returned with `skipped = false`,
and if every candidate up to N = 10000 exists the call fails with the
`CONFLICT` error. -/
theorem c4_rename_probe (st : Store) (fs : FS) (desiredPath : GoStr)
    (hdesired : st.Stat fs desiredPath = .ok ()) :
    (∀ N e, 1 ≤ N → N ≤ 10000 →
      (∀ k, 1 ≤ k → k < N → st.Stat fs (renameCandidate desiredPath k) = .ok ()) →
      st.Stat fs (renameCandidate desiredPath N) = .error e → statNotFound e = true →
      resolveConflictTarget st fs desiredPath (gs "rename") =
        .ok (fs, renameCandidate desiredPath N, false)) ∧
    ((∀ k, 1 ≤ k → k ≤ 10000 → st.Stat fs (renameCandidate desiredPath k) = .ok ()) →
      resolveConflictTarget st fs desiredPath (gs "rename") =
        .error (.api "CONFLICT" "could not resolve unique target name" desiredPath 409)) := by
  have hpol : normalizeConflictPolicy (gs "rename") = .ok (gs "rename") := by decide
  constructor
  · intro N e h1 h2 hall hN hnf
    have hloop := renameProbeLoop_found st fs desiredPath e hnf 10000 1 N h1 (by omega) hall hN
    simp only [resolveConflictTarget, hpol, hdesired, hloop]
    rw [if_neg (show ¬(gs "rename" = gs "skip") from by decide),
      if_neg (show ¬(gs "rename" = gs "overwrite") from by decide), if_true]
  · intro hall
    have hloop := renameProbeLoop_exhaust st fs desiredPath 10000 1
      (fun k hk1 hk2 => hall k hk1 (by omega))
    simp only [resolveConflictTarget, hpol, hdesired, hloop]
    rw [if_neg (show ¬(gs "rename" = gs "skip") from by decide),
      if_neg (show ¬(gs "rename" = gs "overwrite") from by decide), if_true]

/-- C4 witness: with `/d/x.txt` existing and `/d/x (1).txt` free, the rename
probe returns `/d/x (1).txt` with `skipped = false`. -/
theorem c4_rename_probe_witness :
    resolveConflictTarget ⟨⟨gs "/r"⟩, gs "/w"⟩ [gs "/r", gs "/r/d", gs "/r/d/x.txt"]
        (gs "/d/x.txt") (gs "rename") =
      .ok ([gs "/r", gs "/r/d", gs "/r/d/x.txt"], gs "/d/x (1).txt", false) := by
  have h := (c4_rename_probe ⟨⟨gs "/r"⟩, gs "/w"⟩ [gs "/r", gs "/r/d", gs "/r/d/x.txt"]
    (gs "/d/x.txt") (by decide)).1 1 (.osNotExist (gs "/r/d/x (1).txt"))
    (by decide) (by decide) (fun k hk1 hk2 => by omega) (by decide) (by decide)
  exact h.trans (by decide)

/-! ## Claim C2 -/

/-- C2 (amended): Move, Delete and Restore reject a root-path (`/`) batch
item with a dedicated per-item failure whose message contains "root path",
leaving the filesystem, trash repository and remaining items untouched and
continuing the loop; Copy performs no such root-source check. -/
theorem c2_root_source_rejection (st : Store) (ctx : TrashCtx)
    (destination policy source : GoStr) (rest : List GoStr) (fs : FS) (repo : TrashRepo)
    (k : Nat) (accM : MoveResponse) (accD : DeleteResponse) (accR : RestoreResponse)
    (hroot : normalizeAPIPath source = gs "/") :
    moveLoop st destination policy (source :: rest) fs accM =
      moveLoop st destination policy rest fs
        { accM with Failed := accM.Failed ++ [⟨gs "/", gs "root path cannot be moved"⟩] } ∧
    deleteLoop st ctx (source :: rest) fs repo k accD =
      deleteLoop st ctx rest fs repo k
        { accD with Failed := accD.Failed ++ [⟨gs "/", gs "root path cannot be deleted"⟩] } ∧
    restoreLoop st ctx (source :: rest) fs repo k accR =
      restoreLoop st ctx rest fs repo k
        { accR with Failed := accR.Failed ++ [⟨gs "/", gs "root path cannot be restored"⟩] } ∧
    strContains (gs "root path cannot be moved") (gs "root path") = true ∧
    strContains (gs "root path cannot be deleted") (gs "root path") = true ∧
    strContains (gs "root path cannot be restored") (gs "root path") = true := by
  refine ⟨?_, ?_, ?_, by decide, by decide, by decide⟩
  · simp [moveLoop, hroot]
  · simp [deleteLoop, hroot]
  · simp [restoreLoop, hroot]

/-- C2 witness: one concrete application of the root-rejection rule with a
root-path item followed by a second item. -/
theorem c2_root_source_rejection_witness :
    moveLoop ⟨⟨gs "/r"⟩, gs "/w"⟩ (gs "/d") (gs "rename") [gs "/", gs "/a.txt"]
        [gs "/r", gs "/r/d"] ⟨[], []⟩ =
      moveLoop ⟨⟨gs "/r"⟩, gs "/w"⟩ (gs "/d") (gs "rename") [gs "/a.txt"]
        [gs "/r", gs "/r/d"] ⟨[], [⟨gs "/", gs "root path cannot be moved"⟩]⟩ :=
  (c2_root_source_rejection ⟨⟨gs "/r"⟩, gs "/w"⟩
    ⟨gs "/t", fun _ => gs "id", fun _ => gs "u", fun _ => 0, fun _ => none⟩
    (gs "/d") (gs "rename") (gs "/") [gs "/a.txt"] [gs "/r", gs "/r/d"] [] 0
    ⟨[], []⟩ ⟨[], []⟩ ⟨[], []⟩ (by decide)).1

/-- C2 counterexample: a Copy batch with the root path `/` as source is not
rejected with a root-path failure item: under policy `skip` with the
destination existing it produces an ordinary "skipped" failure whose
message does not mention the root path (the Go `Copy` loop has no
`source == "/"` check). -/
theorem c2_copy_counterexample :
    Copy ⟨⟨gs "/r"⟩, gs "/w"⟩ [gs "/r", gs "/r/d"] [gs "/"] (gs "/d") (gs "skip") =
      .ok ([gs "/r", gs "/r/d"], ⟨[], [⟨gs "/", gs "skipped: target already exists"⟩]⟩) ∧
    strContains (gs "skipped: target already exists") (gs "root path") = false := by
  constructor
  · decide
  · decide

/-! ## Claims C3 and C10 -/

/-- The finalize status rule, packaged for reuse: `failed` iff no successes
and some failure, `partial` iff both, `completed` otherwise; progress 100
and `finishedAt` stamped. -/
theorem finalize_status_iff (job : JobData) (items : List JobItemResult) (now : GoStr) :
    ((finalize job items now).status = gs "failed" ↔
      (finalize job items now).successItems = 0 ∧ 0 < (finalize job items now).failedItems) ∧
    ((finalize job items now).status = gs "partial" ↔
      0 < (finalize job items now).successItems ∧ 0 < (finalize job items now).failedItems) ∧
    ((finalize job items now).status = gs "completed" ↔
      ¬((finalize job items now).successItems = 0 ∧ 0 < (finalize job items now).failedItems) ∧
      ¬(0 < (finalize job items now).successItems ∧ 0 < (finalize job items now).failedItems)) ∧
    (finalize job items now).progress = 100 ∧
    (finalize job items now).finishedAt = now := by
  have key : ∀ s f : Nat,
      ((if s = 0 && f > 0 then gs "failed"
        else if s > 0 && f > 0 then gs "partial" else gs "completed") = gs "failed" ↔
        s = 0 ∧ 0 < f) ∧
      ((if s = 0 && f > 0 then gs "failed"
        else if s > 0 && f > 0 then gs "partial" else gs "completed") = gs "partial" ↔
        0 < s ∧ 0 < f) ∧
      ((if s = 0 && f > 0 then gs "failed"
        else if s > 0 && f > 0 then gs "partial" else gs "completed") = gs "completed" ↔
        ¬(s = 0 ∧ 0 < f) ∧ ¬(0 < s ∧ 0 < f)) := by
    intro s f
    have e1 : (gs "partial" = gs "failed") = False := eq_false (by decide)
    have e2 : (gs "completed" = gs "failed") = False := eq_false (by decide)
    have e3 : (gs "failed" = gs "partial") = False := eq_false (by decide)
    have e4 : (gs "completed" = gs "partial") = False := eq_false (by decide)
    have e5 : (gs "failed" = gs "completed") = False := eq_false (by decide)
    have e6 : (gs "partial" = gs "completed") = False := eq_false (by decide)
    rcases Nat.eq_zero_or_pos s with hs | hs
    · subst hs
      rcases Nat.eq_zero_or_pos f with hf | hf
      · subst hf
        simp [e2, e4]
      · have hf' : f ≠ 0 := Nat.pos_iff_ne_zero.mp hf
        simp [hf, hf', e3, e5]
    · have hs' : s ≠ 0 := Nat.pos_iff_ne_zero.mp hs
      rcases Nat.eq_zero_or_pos f with hf | hf
      · subst hf
        simp [hs, hs', e2, e4]
      · have hf' : f ≠ 0 := Nat.pos_iff_ne_zero.mp hf
        simp [hs, hs', hf, hf', e1, e4, e6]
  exact ⟨(key _ _).1, (key _ _).2.1, (key _ _).2.2, rfl, rfl⟩

/-- Concrete store fixture (root `/r`, working directory `/w`). -/
def storeFixture : Store := ⟨⟨gs "/r"⟩, gs "/w"⟩

/-- Concrete two-item job fixture in the `running` state. -/
def jobFixture : JobData := ⟨gs "running", 2, 0, 0, 0, 5, [], []⟩

/-- C3: the terminal status of a finalized job is `failed` iff there are no
success items and some failed item, `partial` iff both kinds are present,
`completed` otherwise, with progress 100 and `finishedAt` stamped; a copy
job with two sources of which exactly one is missing finalizes as `partial`
with one success and one failure, and a copy job whose sources all fail
finalizes as `failed`. -/
theorem c3_finalize_status :
    (∀ (job : JobData) (items : List JobItemResult) (now : GoStr),
      ((finalize job items now).status = gs "failed" ↔
        (finalize job items now).successItems = 0 ∧ 0 < (finalize job items now).failedItems) ∧
      ((finalize job items now).status = gs "partial" ↔
        0 < (finalize job items now).successItems ∧ 0 < (finalize job items now).failedItems) ∧
      ((finalize job items now).status = gs "completed" ↔
        ¬((finalize job items now).successItems = 0 ∧
            0 < (finalize job items now).failedItems) ∧
        ¬(0 < (finalize job items now).successItems ∧
            0 < (finalize job items now).failedItems)) ∧
      (finalize job items now).progress = 100 ∧
      (finalize job items now).finishedAt = now) ∧
    ((finalize jobFixture
        (processCopyItems storeFixture [gs "/r", gs "/r/a.txt", gs "/r/d"]
          [gs "/a.txt", gs "/b.txt"] (gs "/d") (gs "rename")).2 (gs "t1")).status =
        gs "partial" ∧
      (finalize jobFixture
        (processCopyItems storeFixture [gs "/r", gs "/r/a.txt", gs "/r/d"]
          [gs "/a.txt", gs "/b.txt"] (gs "/d") (gs "rename")).2 (gs "t1")).successItems = 1 ∧
      (finalize jobFixture
        (processCopyItems storeFixture [gs "/r", gs "/r/a.txt", gs "/r/d"]
          [gs "/a.txt", gs "/b.txt"] (gs "/d") (gs "rename")).2 (gs "t1")).failedItems = 1) ∧
    (finalize jobFixture
        (processCopyItems storeFixture [gs "/r", gs "/r/d"]
          [gs "/a.txt", gs "/b.txt"] (gs "/d") (gs "rename")).2 (gs "t1")).status =
      gs "failed" :=
  ⟨finalize_status_iff, ⟨by decide, by decide, by decide⟩, by decide⟩

/-- C10: in finalization every item whose status is not `success` (skipped
items included) counts into `failedItems` and never into `successItems`, so
a batch with no successful item and at least one item finalizes as
`failed`; concretely, a two-source copy job under policy `skip` with both
targets existing yields two `skipped` items and finalizes as `failed` with
`failedItems` equal to the item count. -/
theorem c10_skipped_items_count_as_failed :
    (∀ (job : JobData) (items : List JobItemResult) (now : GoStr),
      (∀ i ∈ items, i.Status ≠ gs "success") →
      (finalize job items now).successItems = 0 ∧
      (finalize job items now).failedItems = items.length ∧
      (items ≠ [] → (finalize job items now).status = gs "failed")) ∧
    ((processCopyItems storeFixture
        [gs "/r", gs "/r/a.txt", gs "/r/b.txt", gs "/r/d", gs "/r/d/a.txt", gs "/r/d/b.txt"]
        [gs "/a.txt", gs "/b.txt"] (gs "/d") (gs "skip")).2 =
      [{ From := gs "/a.txt", Status := gs "skipped",
         Reason := gs "skipped: target already exists" },
       { From := gs "/b.txt", Status := gs "skipped",
         Reason := gs "skipped: target already exists" }] ∧
     (finalize jobFixture
        (processCopyItems storeFixture
          [gs "/r", gs "/r/a.txt", gs "/r/b.txt", gs "/r/d", gs "/r/d/a.txt", gs "/r/d/b.txt"]
          [gs "/a.txt", gs "/b.txt"] (gs "/d") (gs "skip")).2 (gs "t1")).status = gs "failed" ∧
     (finalize jobFixture
        (processCopyItems storeFixture
          [gs "/r", gs "/r/a.txt", gs "/r/b.txt", gs "/r/d", gs "/r/d/a.txt", gs "/r/d/b.txt"]
          [gs "/a.txt", gs "/b.txt"] (gs "/d") (gs "skip")).2 (gs "t1")).failedItems = 2 ∧
     (finalize jobFixture
        (processCopyItems storeFixture
          [gs "/r", gs "/r/a.txt", gs "/r/b.txt", gs "/r/d", gs "/r/d/a.txt", gs "/r/d/b.txt"]
          [gs "/a.txt", gs "/b.txt"] (gs "/d") (gs "skip")).2 (gs "t1")).successItems = 0) := by
  constructor
  · intro job items now hall
    have hsucc : (finalize job items now).successItems = 0 := by
      refine List.countP_eq_zero.mpr ?_
      intro i hi
      simpa using hall i hi
    have hfail : (finalize job items now).failedItems = items.length := by
      refine List.countP_eq_length.mpr ?_
      intro i hi
      simpa using hall i hi
    refine ⟨hsucc, hfail, ?_⟩
    intro hne
    refine ((finalize_status_iff job items now).1).mpr ⟨hsucc, ?_⟩
    rw [hfail]
    exact List.length_pos.mpr hne
  · exact ⟨by decide, by decide, by decide, by decide⟩

/-- C10 witness: the general counting rule applied to the concrete all-skip
item list. -/
theorem c10_skipped_items_count_as_failed_witness :
    (finalize jobFixture
      [{ From := gs "/a.txt", Status := gs "skipped",
         Reason := gs "skipped: target already exists" },
       { From := gs "/b.txt", Status := gs "skipped",
         Reason := gs "skipped: target already exists" }] (gs "t1")).successItems = 0 ∧
    (finalize jobFixture
      [{ From := gs "/a.txt", Status := gs "skipped",
         Reason := gs "skipped: target already exists" },
       { From := gs "/b.txt", Status := gs "skipped",
         Reason := gs "skipped: target already exists" }] (gs "t1")).failedItems = 2 :=
  have h := (c10_skipped_items_count_as_failed.1 jobFixture
    [{ From := gs "/a.txt", Status := gs "skipped",
       Reason := gs "skipped: target already exists" },
     { From := gs "/b.txt", Status := gs "skipped",
       Reason := gs "skipped: target already exists" }] (gs "t1")
    (by decide))
  ⟨h.1, h.2.1⟩

/-! ## Filesystem-model lemmas -/

theorem fsExists_iff_mem (fs : FS) (p : GoStr) : fsExists fs p = true ↔ p ∈ fs := by
  simp [fsExists, List.contains_iff_exists_mem_beq, beq_iff_eq, eq_comm]

theorem osMkdirAll_of_exists (fs : FS) (p : GoStr) (h : fsExists fs p = true) :
    osMkdirAll fs p = fs := by
  unfold osMkdirAll
  cases p.length with
  | zero => simp [mkdirAllAux, h]
  | succ n => simp [mkdirAllAux, h]

theorem fsExists_osRemoveAll_self (fs : FS) (p : GoStr) :
    fsExists (osRemoveAll fs p) p = false := by
  rw [Bool.eq_false_iff]
  intro hc
  have hmem := (fsExists_iff_mem _ _).mp hc
  have := (List.mem_filter.mp hmem).2
  simp [underOrEq] at this

theorem fsExists_osRemoveAll_of (fs : FS) (p q : GoStr)
    (hq : fsExists fs q = true) (hnu : underOrEq p q = false) :
    fsExists (osRemoveAll fs p) q = true := by
  rw [fsExists_iff_mem] at hq ⊢
  exact List.mem_filter.mpr ⟨hq, by simp [hnu]⟩

/-! ## Claim C5 -/

theorem checkZipLoop_ok_eq (fs : FS) (destDir : GoStr) :
    ∀ (entries : List ZipEntry) (conflicts : List GoStr),
      checkZipLoop fs destDir entries = .ok conflicts →
      conflicts = (entries.filter (fun e => fsExists fs (goJoin destDir e.name))).map
        (fun e => e.name) := by
  intro entries
  induction entries with
  | nil =>
    intro conflicts h
    simp only [checkZipLoop, Except.ok.injEq] at h
    simp [← h]
  | cons e rest ih =>
    intro conflicts h
    simp only [checkZipLoop] at h
    split at h
    · exact Except.noConfusion h
    · cases hrec : checkZipLoop fs destDir rest with
      | error err => rw [hrec] at h; exact Except.noConfusion h
      | ok cs =>
        rw [hrec] at h
        simp only [Except.ok.injEq] at h
        subst h
        by_cases hex : fsExists fs (goJoin destDir e.name) = true
        · simp [hex, ih cs hrec]
        · simp only [Bool.not_eq_true] at hex
          simp [hex, ih cs hrec]

/-- C5: with a non-`overwrite` policy, a Decompress call whose pre-flight
scan finds collisions returns the `CONFLICT` error carrying exactly the
colliding entry names (in archive order) and changes nothing — the
filesystem is returned untouched and no entry is extracted; with policy
`overwrite` the conflict scan is skipped and the archive is extracted
directly over the destination. -/
theorem c5_decompress_conflict_scan (st : Store) (zipAt : GoStr → Except GoError ZipFile)
    (fs : FS) (source destination policy srcR destR : GoStr)
    (entries : List ZipEntry) (conflicts : List GoStr)
    (hsrc : st.Resolve (normalizeAPIPath source) = .ok srcR)
    (hdst : st.Resolve (normalizeAPIPath destination) = .ok destR)
    (hdex : fsExists fs destR = true)
    (hzip : zipAt srcR = .ok entries)
    (hchk : checkZipLoop fs destR entries = .ok conflicts) :
    (conflicts = (entries.filter (fun e => fsExists fs (goJoin destR e.name))).map
      (fun e => e.name)) ∧
    (policy ≠ gs "overwrite" → conflicts ≠ [] →
      Decompress st zipAt fs source destination policy =
        (fs, { Conflicts := conflicts },
          some (.api "CONFLICT" "conflicting files found" (gs "conflicts") 409))) ∧
    (Decompress st zipAt fs source destination (gs "overwrite") =
      (match decompressLoop destR entries fs [] with
       | (fs2, .error e) => (fs2, {}, some e)
       | (fs2, .ok files) =>
         (fs2, { Destination := normalizeAPIPath destination, Files := files }, none))) := by
  have hmk : osMkdirAll fs destR = fs := osMkdirAll_of_exists fs destR hdex
  refine ⟨checkZipLoop_ok_eq fs destR entries conflicts hchk, ?_, ?_⟩
  · intro hpol hcon
    simp only [Decompress, hsrc, hdst, Store.MkdirAll, hmk]
    rw [if_pos hpol]
    simp only [CheckZipConflicts, hzip, hchk]
    rw [if_pos hcon]
  · simp only [Decompress, hsrc, hdst, Store.MkdirAll, hmk]
    rw [if_neg (show ¬(gs "overwrite" ≠ gs "overwrite") from by simp)]
    simp only [utilDecompress, hzip]

/-- C5 witness: a concrete archive whose `a.txt` entry collides yields the
conflict error with that entry listed and the filesystem unchanged, while
`overwrite` extracts over it. -/
theorem c5_decompress_conflict_scan_witness :
    Decompress storeFixture
        (fun p => if p = gs "/r/z.zip" then
          .ok [⟨gs "a.txt", false⟩, ⟨gs "b.txt", false⟩] else .error (.osNotExist p))
        [gs "/r", gs "/r/z.zip", gs "/r/d", gs "/r/d/a.txt"]
        (gs "/z.zip") (gs "/d") (gs "rename") =
      ([gs "/r", gs "/r/z.zip", gs "/r/d", gs "/r/d/a.txt"],
        { Conflicts := [gs "a.txt"] },
        some (.api "CONFLICT" "conflicting files found" (gs "conflicts") 409)) := by
  have h := (c5_decompress_conflict_scan storeFixture
    (fun p => if p = gs "/r/z.zip" then
      .ok [⟨gs "a.txt", false⟩, ⟨gs "b.txt", false⟩] else .error (.osNotExist p))
    [gs "/r", gs "/r/z.zip", gs "/r/d", gs "/r/d/a.txt"]
    (gs "/z.zip") (gs "/d") (gs "rename") (gs "/r/z.zip") (gs "/r/d")
    [⟨gs "a.txt", false⟩, ⟨gs "b.txt", false⟩] [gs "a.txt"]
    (by decide) (by decide) (by decide) (by decide) (by decide)).2.1
    (by decide) (by decide)
  exact h

/-! ## Claim C6 -/

/-- `fs'` is reachable from `fs` by writing archive entries whose target
paths all lie under the cleaned destination plus separator. -/
inductive ConfinedWrites (destDir : GoStr) : FS → FS → Prop
  | refl (fs : FS) : ConfinedWrites destDir fs fs
  | step (fs fs' : FS) (fpath : GoStr) (isDir : Bool) :
      zipEntryConfined destDir fpath = true →
      ConfinedWrites destDir (writeEntry fs fpath isDir) fs' →
      ConfinedWrites destDir fs fs'

theorem decompressLoop_abort (destDir : GoStr) :
    ∀ (entries : List ZipEntry) (fs : FS) (acc : List GoStr),
      (∃ e ∈ entries, zipEntryConfined destDir (goJoin destDir e.name) = false) →
      ∃ bad, (decompressLoop destDir entries fs acc).2 = .error (.illegalFilePath bad) := by
  intro entries
  induction entries with
  | nil => intro fs acc h; simp at h
  | cons e rest ih =>
    intro fs acc hex
    by_cases hg : zipEntryConfined destDir (goJoin destDir e.name) = true
    · simp only [decompressLoop, hg, Bool.not_true, Bool.false_eq_true, if_false]
      refine ih _ _ ?_
      rcases hex with ⟨e', he', hbad⟩
      rcases List.mem_cons.mp he' with h | h
      · subst h; rw [hg] at hbad; exact Bool.noConfusion hbad
      · exact ⟨e', h, hbad⟩
    · simp only [Bool.not_eq_true] at hg
      simp only [decompressLoop, hg, Bool.not_false, if_true]
      exact ⟨goJoin destDir e.name, rfl⟩

theorem decompressLoop_ok_confined (destDir : GoStr) :
    ∀ (entries : List ZipEntry) (fs : FS) (acc : List GoStr) (fs' : FS) (files : List GoStr),
      decompressLoop destDir entries fs acc = (fs', .ok files) →
      ∀ name ∈ files, name ∈ acc ∨ zipEntryConfined destDir (goJoin destDir name) = true := by
  intro entries
  induction entries with
  | nil =>
    intro fs acc fs' files h name hname
    simp only [decompressLoop, Prod.mk.injEq, Except.ok.injEq] at h
    exact Or.inl (h.2 ▸ hname)
  | cons e rest ih =>
    intro fs acc fs' files h name hname
    by_cases hg : zipEntryConfined destDir (goJoin destDir e.name) = true
    · simp only [decompressLoop, hg, Bool.not_true, Bool.false_eq_true, if_false] at h
      rcases ih _ _ _ _ h name hname with hacc | hcon
      · rcases List.mem_append.mp hacc with h1 | h1
        · exact Or.inl h1
        · rw [List.mem_singleton] at h1
          subst h1
          exact Or.inr hg
      · exact Or.inr hcon
    · simp only [Bool.not_eq_true] at hg
      simp only [decompressLoop, hg, Bool.not_false, if_true, Prod.mk.injEq] at h
      exact absurd h.2 (by simp)

theorem decompressLoop_confinedWrites (destDir : GoStr) :
    ∀ (entries : List ZipEntry) (fs : FS) (acc : List GoStr),
      ConfinedWrites destDir fs (decompressLoop destDir entries fs acc).1 := by
  intro entries
  induction entries with
  | nil => intro fs acc; exact ConfinedWrites.refl fs
  | cons e rest ih =>
    intro fs acc
    by_cases hg : zipEntryConfined destDir (goJoin destDir e.name) = true
    · simp only [decompressLoop, hg, Bool.not_true, Bool.false_eq_true, if_false]
      exact ConfinedWrites.step fs _ (goJoin destDir e.name) e.isDir hg (ih _ _)
    · simp only [Bool.not_eq_true] at hg
      simp only [decompressLoop, hg, Bool.not_false, if_true]
      exact ConfinedWrites.refl fs

/-- C6: every archive entry is confined under the destination: an entry
whose joined path does not extend the cleaned destination plus separator
aborts the whole extraction with the illegal-file-path error; every
extracted entry name reported by a successful run is confined; and every
filesystem change performed by the extraction (including partial runs that
abort) is a write at an entry path confined under the destination. -/
theorem c6_zip_slip_confinement (zipAt : GoStr → Except GoError ZipFile) (fs : FS)
    (srcZip destDir : GoStr) (entries : List ZipEntry)
    (hzip : zipAt srcZip = .ok entries) :
    ((∃ e ∈ entries, zipEntryConfined destDir (goJoin destDir e.name) = false) →
      ∃ bad, (utilDecompress zipAt fs srcZip destDir).2 = .error (.illegalFilePath bad)) ∧
    (∀ fs' files, utilDecompress zipAt fs srcZip destDir = (fs', .ok files) →
      ∀ name ∈ files, zipEntryConfined destDir (goJoin destDir name) = true) ∧
    ConfinedWrites destDir fs (utilDecompress zipAt fs srcZip destDir).1 := by
  simp only [utilDecompress, hzip]
  refine ⟨decompressLoop_abort destDir entries fs [], ?_, decompressLoop_confinedWrites destDir entries fs []⟩
  intro fs' files h name hname
  rcases decompressLoop_ok_confined destDir entries fs [] fs' files h name hname with hacc | hcon
  · simp at hacc
  · exact hcon

/-- C6 witness: a concrete archive with a `../evil` entry aborts, and a
well-formed archive extracts with every entry confined. -/
theorem c6_zip_slip_confinement_witness :
    (∃ bad, (utilDecompress
      (fun _ => .ok [⟨gs "ok.txt", false⟩, ⟨gs "../evil", false⟩])
      [gs "/r", gs "/r/d"] (gs "/r/z.zip") (gs "/r/d")).2 =
        .error (.illegalFilePath bad)) ∧
    zipEntryConfined (gs "/r/d") (goJoin (gs "/r/d") (gs "ok.txt")) = true :=
  ⟨(c6_zip_slip_confinement (fun _ => .ok [⟨gs "ok.txt", false⟩, ⟨gs "../evil", false⟩])
      [gs "/r", gs "/r/d"] (gs "/r/z.zip") (gs "/r/d")
      [⟨gs "ok.txt", false⟩, ⟨gs "../evil", false⟩] rfl).1
    ⟨⟨gs "../evil", false⟩, by decide, by decide⟩,
   by decide⟩

/-! ## Rename round-trip lemmas (for the compensation claims) -/

theorem eq_append_drop_of_isPrefixOf {l p : GoStr} (h : l.isPrefixOf p = true) :
    p = l ++ p.drop l.length := by
  conv_lhs => rw [← List.take_append_drop l.length p]
  rw [← List.prefix_iff_eq_take.mp (List.isPrefixOf_iff_prefix.mp h)]

theorem renameMap_self (src dst : GoStr) : renameMap src dst src = dst := by
  simp [renameMap]

theorem renameMap_unrelated (src dst p : GoStr) (h1 : ¬(p = src))
    (h2 : (src ++ ['/']).isPrefixOf p = false) : renameMap src dst p = p := by
  simp [renameMap, h1, h2]

theorem underOrEq_false_iff (pre p : GoStr) :
    underOrEq pre p = false ↔ ¬(p = pre) ∧ (pre ++ ['/']).isPrefixOf p = false := by
  unfold underOrEq
  simp [beq_eq_false_iff_ne]

theorem renameMap_roundtrip (src dst p : GoStr) (hp : underOrEq dst p = false) :
    renameMap dst src (renameMap src dst p) = p := by
  obtain ⟨hp1, hp2⟩ := (underOrEq_false_iff dst p).mp hp
  by_cases h1 : p = src
  · subst h1
    rw [renameMap_self, renameMap_self]
  · by_cases h2 : (src ++ ['/']).isPrefixOf p = true
    · have hq : renameMap src dst p = dst ++ p.drop src.length := by
        simp [renameMap, h1, h2]
      rw [hq]
      have hpfull := eq_append_drop_of_isPrefixOf h2
      have hp3 : p = src ++ '/' :: p.drop (src.length + 1) := by
        simpa [List.append_assoc] using hpfull
      have hdrop : p.drop src.length = '/' :: p.drop (src.length + 1) := by
        conv_lhs => rw [hp3]
        exact List.drop_left src ('/' :: p.drop (src.length + 1))
      rw [hdrop]
      have hne : ¬(dst ++ '/' :: p.drop (src.length + 1) = dst) := by
        intro hEq
        have := congrArg List.length hEq
        simp at this
      have hpre : (dst ++ ['/']).isPrefixOf (dst ++ '/' :: p.drop (src.length + 1)) = true :=
        List.isPrefixOf_iff_prefix.mpr ⟨p.drop (src.length + 1), by simp⟩
      have hdst_drop : (dst ++ '/' :: p.drop (src.length + 1)).drop dst.length =
          '/' :: p.drop (src.length + 1) := List.drop_left dst _
      simp only [renameMap, hne, if_false, hpre, if_true, hdst_drop]
      exact hp3.symm
    · rw [renameMap_unrelated src dst p h1 (by rwa [Bool.not_eq_true] at h2)]
      exact renameMap_unrelated dst src p hp1 hp2

theorem fs_map_roundtrip (fs : FS) (src dst : GoStr)
    (hfree : ∀ p ∈ fs, underOrEq dst p = false) :
    (fs.map (renameMap src dst)).map (renameMap dst src) = fs := by
  rw [List.map_map]
  have h : ∀ p ∈ fs, (renameMap dst src ∘ renameMap src dst) p = id p := fun p hp =>
    renameMap_roundtrip src dst p (hfree p hp)
  rw [List.map_congr_left h, List.map_id]

theorem fsExists_map_of (fs : FS) (f : GoStr → GoStr) (p : GoStr)
    (h : fsExists fs p = true) : fsExists (fs.map f) (f p) = true := by
  rw [fsExists_iff_mem] at h ⊢
  exact List.mem_map_of_mem f h

/-! ## Trash-repository lemmas -/

theorem pickLatest_mem : ∀ (l : List TrashRecord) (r : TrashRecord),
    pickLatest l = some r → r ∈ l := by
  intro l
  induction l with
  | nil => intro r h; exact Option.noConfusion h
  | cons x rest ih =>
    intro r h
    simp only [pickLatest] at h
    cases hrec : pickLatest rest with
    | none =>
      simp only [hrec, Option.some.injEq] at h
      subst h
      exact List.mem_cons_self x rest
    | some best =>
      simp only [hrec] at h
      split at h
      · simp only [Option.some.injEq] at h
        subst h
        exact List.mem_cons_of_mem x (ih best hrec)
      · simp only [Option.some.injEq] at h
        subst h
        exact List.mem_cons_self x rest

theorem findLatestByPath_spec (repo : TrashRepo) (p : GoStr) (r : TrashRecord)
    (h : findLatestByPath repo p = .ok r) : r ∈ repo ∧ r.restoredAt = none := by
  unfold findLatestByPath at h
  cases hpick : pickLatest (repo.filter
      (fun r => r.originalPath = p && r.restoredAt.isNone)) with
  | none => rw [hpick] at h; exact Except.noConfusion h
  | some r' =>
    rw [hpick] at h
    simp only [Except.ok.injEq] at h
    subst h
    have hmem := pickLatest_mem _ _ hpick
    rw [List.mem_filter] at hmem
    refine ⟨hmem.1, ?_⟩
    have := hmem.2
    simp only [Bool.and_eq_true, decide_eq_true_eq] at this
    exact Option.isNone_iff_eq_none.mp this.2

theorem markRestored_isOk (repo : TrashRepo) (r : TrashRecord) (now : Nat)
    (hmem : r ∈ repo) (hnone : r.restoredAt = none) :
    markRestored repo r.id now =
      .ok (repo.map (fun x =>
        if x.id = r.id && x.restoredAt.isNone then { x with restoredAt := some now } else x)) := by
  unfold markRestored
  rw [if_pos (List.any_eq_true.mpr ⟨r, hmem, by simp [hnone]⟩)]

/-! ## Claim C8 -/

/-- C8: when the repository insert after the move into the trash area
fails, `SoftDelete` moves the file back to its original location and
returns the repository error: the filesystem and the trash-record table
both end exactly as they started. -/
theorem c8_softDelete_compensation (st : Store) (trashRoot freshId freshUuid : GoStr)
    (now : Nat) (e : GoError) (fs : FS) (repo : TrashRepo) (apiPath resolved : GoStr)
    (hres : st.Resolve apiPath = .ok resolved)
    (hex : fsExists fs resolved = true)
    (hdirT : fsExists fs (goDir (goJoin trashRoot (freshUuid ++ gs "_" ++ goBase apiPath))) = true)
    (hfresh : ∀ p ∈ fs,
      underOrEq (goJoin trashRoot (freshUuid ++ gs "_" ++ goBase apiPath)) p = false)
    (hdirR : fsExists fs (goDir resolved) = true)
    (hndr : underOrEq resolved (goDir resolved) = false) :
    SoftDelete st trashRoot freshId freshUuid now (some e) fs repo apiPath =
      (fs, repo, .error e) := by
  have hstat : osStat fs resolved = .ok () := by simp [osStat, hex]
  have hmk1 : osMkdirAll fs (goDir (goJoin trashRoot (freshUuid ++ gs "_" ++ goBase apiPath))) = fs :=
    osMkdirAll_of_exists _ _ hdirT
  have hren1 : osRename fs resolved (goJoin trashRoot (freshUuid ++ gs "_" ++ goBase apiPath)) =
      .ok (fs.map (renameMap resolved (goJoin trashRoot (freshUuid ++ gs "_" ++ goBase apiPath)))) := by
    simp [osRename, hex]
  have hmove1 : movePath fs resolved (goJoin trashRoot (freshUuid ++ gs "_" ++ goBase apiPath)) =
      (fs.map (renameMap resolved (goJoin trashRoot (freshUuid ++ gs "_" ++ goBase apiPath))), none) := by
    simp only [movePath, hmk1, hren1]
  obtain ⟨hne, hpre⟩ := (underOrEq_false_iff resolved (goDir resolved)).mp hndr
  have hdirR1 : fsExists
      (fs.map (renameMap resolved (goJoin trashRoot (freshUuid ++ gs "_" ++ goBase apiPath))))
      (goDir resolved) = true := by
    have hmap := fsExists_map_of fs
      (renameMap resolved (goJoin trashRoot (freshUuid ++ gs "_" ++ goBase apiPath)))
      (goDir resolved) hdirR
    rwa [renameMap_unrelated _ _ _ hne hpre] at hmap
  have hmk2 : osMkdirAll
      (fs.map (renameMap resolved (goJoin trashRoot (freshUuid ++ gs "_" ++ goBase apiPath))))
      (goDir resolved) =
      fs.map (renameMap resolved (goJoin trashRoot (freshUuid ++ gs "_" ++ goBase apiPath))) :=
    osMkdirAll_of_exists _ _ hdirR1
  have htp1 : fsExists
      (fs.map (renameMap resolved (goJoin trashRoot (freshUuid ++ gs "_" ++ goBase apiPath))))
      (goJoin trashRoot (freshUuid ++ gs "_" ++ goBase apiPath)) = true := by
    have hmap := fsExists_map_of fs
      (renameMap resolved (goJoin trashRoot (freshUuid ++ gs "_" ++ goBase apiPath))) resolved hex
    rwa [renameMap_self] at hmap
  have hround :
      (fs.map (renameMap resolved (goJoin trashRoot (freshUuid ++ gs "_" ++ goBase apiPath)))).map
        (renameMap (goJoin trashRoot (freshUuid ++ gs "_" ++ goBase apiPath)) resolved) = fs :=
    fs_map_roundtrip fs resolved (goJoin trashRoot (freshUuid ++ gs "_" ++ goBase apiPath)) hfresh
  have hmove2 : movePath
      (fs.map (renameMap resolved (goJoin trashRoot (freshUuid ++ gs "_" ++ goBase apiPath))))
      (goJoin trashRoot (freshUuid ++ gs "_" ++ goBase apiPath)) resolved = (fs, none) := by
    simp only [movePath, hmk2, osRename, htp1, if_true, hround]
  simp only [SoftDelete, hres, hstat, hmove1, hmove2]

/-- C8 witness: a concrete soft delete whose repository insert fails leaves
the filesystem and repository unchanged and surfaces the repository
error. -/
theorem c8_softDelete_compensation_witness :
    SoftDelete storeFixture (gs "/t") (gs "id1") (gs "u1") 5 (some (.repoWrite "db down"))
        [gs "/r", gs "/r/docs", gs "/r/docs/a.txt", gs "/t"] [] (gs "/docs/a.txt") =
      ([gs "/r", gs "/r/docs", gs "/r/docs/a.txt", gs "/t"], [],
        .error (.repoWrite "db down")) :=
  c8_softDelete_compensation storeFixture (gs "/t") (gs "id1") (gs "u1") 5
    (.repoWrite "db down") [gs "/r", gs "/r/docs", gs "/r/docs/a.txt", gs "/t"] []
    (gs "/docs/a.txt") (gs "/r/docs/a.txt")
    (by decide) (by decide) (by decide) (by decide) (by decide) (by decide)

/-! ## Claim C7 -/

/-- C7: restoring a path whose target location is occupied fails with the
path-conflict error and mutates nothing — the filesystem and the trash
records are returned unchanged, so the trashed copy stays in the trash
area and the record stays non-restored; consequently, once the occupying
file is removed, restoring the same path succeeds. -/
theorem c7_restore_conflict (st : Store) (trashRoot : GoStr) (now now' : Nat)
    (fs : FS) (repo : TrashRepo) (apiPath targetResolved : GoStr) (record : TrashRecord)
    (hfind : findLatestByPath repo apiPath = .ok record)
    (hres : st.Resolve apiPath = .ok targetResolved)
    (hocc : fsExists fs targetResolved = true) :
    RestoreLatest st trashRoot now fs repo apiPath = (fs, repo, .error .pathConflictTarget) ∧
    (fsExists fs (goDir targetResolved) = true →
      underOrEq targetResolved (goDir targetResolved) = false →
      fsExists fs (goJoin trashRoot record.trashName) = true →
      underOrEq targetResolved (goJoin trashRoot record.trashName) = false →
      RestoreLatest st trashRoot now' (osRemoveAll fs targetResolved) repo apiPath =
        ((osRemoveAll fs targetResolved).map
            (renameMap (goJoin trashRoot record.trashName) targetResolved),
          repo.map (fun x =>
            if x.id = record.id && x.restoredAt.isNone then
              { x with restoredAt := some now' } else x),
          .ok { record with restoredAt := some now' })) := by
  constructor
  · simp [RestoreLatest, hfind, hres, hocc]
  · intro hdir hndir htrash hnund
    have hnotex : fsExists (osRemoveAll fs targetResolved) targetResolved = false :=
      fsExists_osRemoveAll_self fs targetResolved
    have hdir' : fsExists (osRemoveAll fs targetResolved) (goDir targetResolved) = true :=
      fsExists_osRemoveAll_of fs targetResolved _ hdir hndir
    have htrash' : fsExists (osRemoveAll fs targetResolved)
        (goJoin trashRoot record.trashName) = true :=
      fsExists_osRemoveAll_of fs targetResolved _ htrash hnund
    have hmk : osMkdirAll (osRemoveAll fs targetResolved) (goDir targetResolved) =
        osRemoveAll fs targetResolved := osMkdirAll_of_exists _ _ hdir'
    have hmove : movePath (osRemoveAll fs targetResolved)
        (goJoin trashRoot record.trashName) targetResolved =
        ((osRemoveAll fs targetResolved).map
          (renameMap (goJoin trashRoot record.trashName) targetResolved), none) := by
      simp [movePath, hmk, osRename, htrash']
    obtain ⟨hmem, hnone⟩ := findLatestByPath_spec repo apiPath record hfind
    have hmark := markRestored_isOk repo record now' hmem hnone
    simp [RestoreLatest, hfind, hres, hnotex, hmk, hmove, hmark]

/-- C7 witness: a concrete occupied restore fails with the path conflict
and leaves everything in place; after removing the occupier the same
restore succeeds and stamps the record. -/
theorem c7_restore_conflict_witness :
    RestoreLatest storeFixture (gs "/t") 9
        [gs "/r", gs "/r/docs", gs "/r/docs/a.txt", gs "/t", gs "/t/u1_a.txt"]
        [⟨gs "id1", gs "/docs/a.txt", gs "u1_a.txt", 5, none⟩] (gs "/docs/a.txt") =
      ([gs "/r", gs "/r/docs", gs "/r/docs/a.txt", gs "/t", gs "/t/u1_a.txt"],
        [⟨gs "id1", gs "/docs/a.txt", gs "u1_a.txt", 5, none⟩],
        .error .pathConflictTarget) ∧
    RestoreLatest storeFixture (gs "/t") 9
        (osRemoveAll [gs "/r", gs "/r/docs", gs "/r/docs/a.txt", gs "/t", gs "/t/u1_a.txt"]
          (gs "/r/docs/a.txt"))
        [⟨gs "id1", gs "/docs/a.txt", gs "u1_a.txt", 5, none⟩] (gs "/docs/a.txt") =
      ([gs "/r", gs "/r/docs", gs "/t", gs "/r/docs/a.txt"],
        [⟨gs "id1", gs "/docs/a.txt", gs "u1_a.txt", 5, some 9⟩],
        .ok ⟨gs "id1", gs "/docs/a.txt", gs "u1_a.txt", 5, some 9⟩) := by
  have h := c7_restore_conflict storeFixture (gs "/t") 9 9
    [gs "/r", gs "/r/docs", gs "/r/docs/a.txt", gs "/t", gs "/t/u1_a.txt"]
    [⟨gs "id1", gs "/docs/a.txt", gs "u1_a.txt", 5, none⟩]
    (gs "/docs/a.txt") (gs "/r/docs/a.txt")
    ⟨gs "id1", gs "/docs/a.txt", gs "u1_a.txt", 5, none⟩
    (by decide) (by decide) (by decide)
  exact ⟨h.1, (h.2 (by decide) (by decide) (by decide) (by decide)).trans (by decide)⟩

end GFE
